import Mathlib

/-!
Verification of the text-indexing and bounded-context-retrieval core of the
raven-md-editor repository.

The definitions below are a shallow embedding of the TypeScript source:

* `src/src/app/api/utils/mmdIndex.ts` (class `MMDIndexServer`): the line
  store, token index, structure detector and the query methods
  `findTextLines`, `getContextAroundLines`, `findChapter`,
  `getDocumentStructure`, `findAllOccurrencesWithContext`, `getPageForLine`,
  `getEnhancedContext`.
* `src/src/app/api/edit/route.ts`: the helpers `extractIntent`,
  `findRelevantSections` and the context assembler `getRelevantContext`.
* the client-side `MMDIndex.findAllOccurrences` pattern construction from
  the unnamed client source file.

Modelling conventions:

* JavaScript strings are modelled by Lean `String` (a list of characters);
  inputs are assumed to lie in the basic multilingual plane so that one JS
  UTF-16 code unit corresponds to one `Char` and `s.length` agrees.
* A JS `Map<string, number[]>` is modelled as a total function
  `String → List Nat` defaulting to `[]`.  The source only ever observes the
  map through `get` (with `has` used solely to initialise a key to `[]`), so
  an absent key and a key holding `[]` are indistinguishable.
* JS `number` values appearing as indices, counts and page numbers are
  modelled as `Nat`; `Math.max(0, a - b)` is Nat truncated subtraction.
* The two float multiplications `maxChars * 0.7` / `Math.floor(maxChars*0.7)`
  (and `0.3`) are modelled by exact rational arithmetic
  (`7 * maxChars / 10`, Nat floor division).  At the source's default budget
  of 25000 the IEEE double products are exactly 17500.0 and 7500.0, so the
  model and the source agree there.
* Regular expressions that the source applies to arbitrary strings are
  embedded as bespoke executable scanners implementing the exact
  leftmost/greedy semantics of the pattern in question.
-/

/-! ## JS string primitives -/

/-- The whitespace characters recognised by `\s`, `trim` and `split(/\s+/)`
(ASCII fragment of the JS definition). -/
def isJsWs (c : Char) : Bool :=
  c = ' ' || c = '\t' || c = '\n' || c = '\r' || c = '\x0b' || c = '\x0c'

/-- JS `String.prototype.trim` (ASCII whitespace). -/
def jsTrim (s : String) : String :=
  ⟨((s.data.dropWhile isJsWs).reverse.dropWhile isJsWs).reverse⟩

/-- JS `String.prototype.toLowerCase` (ASCII letters). -/
def jsLower (s : String) : String :=
  ⟨s.data.map Char.toLower⟩

/-- JS `s.substring(a, b)`: clamps both arguments to `[0, length]` and swaps
them when `a > b`. -/
def jsSubstring (s : String) (a b : Nat) : String :=
  let a' := min a s.data.length
  let b' := min b s.data.length
  ⟨(s.data.drop (min a' b')).take (max a' b' - min a' b')⟩

/-- Case-sensitive prefix test on characters (executable). -/
def prefixCS : List Char → List Char → Bool
  | [], _ => true
  | _ :: _, [] => false
  | p :: ps, c :: cs => p = c && prefixCS ps cs

/-- Does `pat` occur as a contiguous sublist of `s`? -/
def subOccurs (pat : List Char) : List Char → Bool
  | [] => decide (pat = [])
  | c :: cs => prefixCS pat (c :: cs) || subOccurs pat cs

/-- JS `s.includes(sub)`. -/
def jsIncludes (s sub : String) : Bool :=
  subOccurs sub.data s.data

/-- First position at which `pat` occurs in `s` (JS `indexOf`, with `none`
for `-1`).  `indexOf("")` is `0`, as in JS. -/
def firstIndexOfAux (pat : List Char) : List Char → Option Nat
  | [] => if pat = [] then some 0 else none
  | c :: cs =>
    if prefixCS pat (c :: cs) then some 0
    else (firstIndexOfAux pat cs).map (· + 1)

/-- JS `s.indexOf(pat)` (as an `Option`). -/
def jsIndexOf? (s pat : String) : Option Nat :=
  firstIndexOfAux pat.data s.data

/-- JS `s.split(/\s+/)` on a list of characters: pieces between maximal
whitespace runs, with an empty piece at an end that touches a run. -/
def splitWsCore : List Char → List (List Char)
  | [] => [[]]
  | c :: cs =>
    let r := splitWsCore cs
    if isJsWs c then
      match cs with
      | [] => [] :: r
      | c' :: _ => if isJsWs c' then r else [] :: r
    else
      match r with
      | [] => [[c]]
      | p :: ps => (c :: p) :: ps

/-- JS `s.split(/\s+/)`. -/
def jsSplitWs (s : String) : List String :=
  (splitWsCore s.data).map String.mk

/-- Insert an element into a sorted list after every earlier element that
compares `le` to it (the insertion step of a stable insertion sort). -/
def stableInsert {α : Type} (le : α → α → Bool) (x : α) : List α → List α
  | [] => [x]
  | y :: ys => if le y x then y :: stableInsert le x ys else x :: y :: ys

/-- A stable sort (insertion sort).  JS `Array.prototype.sort` is required
to be stable, and a stable sort's output is uniquely determined by the
comparator, so this models the source's `.sort(...)` calls faithfully. -/
def stableSort {α : Type} (le : α → α → Bool) (l : List α) : List α :=
  l.foldl (fun acc x => stableInsert le x acc) []

/-! ## Input document schema (`MMDLinesData`) -/

/-- Geometric region of a line on its page (`region?` in the source). -/
structure MMDRegion where
  top_left_x : Int
  top_left_y : Int
  width : Int
  height : Int
deriving DecidableEq, Repr

/-- One transcript line (`MMDLine` in `mmdIndex.ts`). -/
structure MMDLine where
  text : String
  line : Nat
  column : Nat
  region : Option MMDRegion := none
deriving DecidableEq, Repr

/-- One transcript page (`MMDPage`). -/
structure MMDPage where
  image_id : String
  page : Nat
  lines : List MMDLine
deriving DecidableEq, Repr

/-- The page-structured input document (`MMDLinesData`). -/
structure MMDLinesData where
  pages : List MMDPage
deriving DecidableEq, Repr

/-! ## Structure detector: the heading regexes of `buildIndex`

Each of the six patterns tested on a trimmed line is embedded as a bespoke
scanner with the pattern's exact matching semantics. -/

/-- Case-insensitive character equality (ASCII). -/
def chEqCI (a b : Char) : Bool :=
  a.toLower = b.toLower

/-- Does `pat` occur as a case-insensitive prefix of `s`? -/
def prefixCI : List Char → List Char → Bool
  | [], _ => true
  | _ :: _, [] => false
  | p :: ps, c :: cs => chEqCI p c && prefixCI ps cs

/-- After `\section` / `\chapter`: an optional `*` followed by `{`.
Returns the remaining characters on success. -/
def eatStarBrace : List Char → Option (List Char)
  | '*' :: '\x7b' :: rest => some rest
  | '\x7b' :: rest => some rest
  | _ => none

/-- Scan a `[^}]*Chapter` tail: looking for a case-insensitive `Chapter`
with no `}` before it. -/
def scanNoBraceChapter : List Char → Bool
  | [] => false
  | c :: cs =>
    if prefixCI "chapter".data (c :: cs) then true
    else if c = '\x7d' then false
    else scanNoBraceChapter cs

/-- Match of `\s+\d+` at the head: at least one whitespace character, then a
digit right after the maximal whitespace run (the backtracking-faithful
reading of `\s+\d+`). -/
def wsThenDigit (cs : List Char) : Bool :=
  match cs with
  | c :: rest =>
    isJsWs c &&
      (match rest.dropWhile isJsWs with
       | d :: _ => d.isDigit
       | [] => false)
  | [] => false

/-- Test of `/\\section\*?\{[^}]*Chapter/i` anywhere in the text. -/
def testSectionChapterCI : List Char → Bool
  | [] => false
  | c :: cs =>
    (prefixCI "\\section".data (c :: cs) &&
      (match eatStarBrace ((c :: cs).drop 8) with
       | some rest => scanNoBraceChapter rest
       | none => false)) ||
    testSectionChapterCI cs

/-- Test of `/\\chapter\*?\{/i` anywhere in the text. -/
def testChapterBraceCI : List Char → Bool
  | [] => false
  | c :: cs =>
    (prefixCI "\\chapter".data (c :: cs) &&
      (eatStarBrace ((c :: cs).drop 8)).isSome) ||
    testChapterBraceCI cs

/-- Test of `/^\\section\*?\{/i`: the wrapper at the start of the text. -/
def testStartSectionCI (cs : List Char) : Bool :=
  prefixCI "\\section".data cs && (eatStarBrace (cs.drop 8)).isSome

/-- After `Chapter\s+\d+`, the `[^}]*\}` tail just needs some later `}`. -/
def hasCloseBrace (cs : List Char) : Bool :=
  cs.any (· = '\x7d')

/-- Skip the maximal whitespace run, then the maximal digit run (at least
one of each); return the rest on success. -/
def eatWsDigits (cs : List Char) : Option (List Char) :=
  match cs with
  | c :: rest =>
    if isJsWs c then
      match rest.dropWhile isJsWs with
      | d :: ds => if d.isDigit then some (ds.dropWhile (·.isDigit)) else none
      | [] => none
    else none
  | [] => none

/-- Test of `/Chapter\s+\d+[^}]*\}/i` anywhere in the text. -/
def testChapterNumBraceCI : List Char → Bool
  | [] => false
  | c :: cs =>
    (prefixCI "chapter".data (c :: cs) &&
      (match eatWsDigits ((c :: cs).drop 7) with
       | some rest => hasCloseBrace rest
       | none => false)) ||
    testChapterNumBraceCI cs

/-- Test of `/^#{1,6}\s+Chapter/i`. -/
def testHashChapterCI (cs : List Char) : Bool :=
  let hashes := cs.takeWhile (· = '#')
  let rest := cs.dropWhile (· = '#')
  1 ≤ hashes.length && hashes.length ≤ 6 &&
    (match rest with
     | c :: rest' =>
       isJsWs c && prefixCI "chapter".data (rest'.dropWhile isJsWs)
     | [] => false)

/-- Test of `/\\section\*\{Chapter\s+\d+/` (case-sensitive) anywhere. -/
def testSectionChapterNumCS : List Char → Bool
  | [] => false
  | c :: cs =>
    (prefixCS "\\section*\x7bChapter".data (c :: cs) &&
      (eatWsDigits ((c :: cs).drop 17)).isSome) ||
    testSectionChapterNumCS cs

/-- The `isChapter` disjunction of `MMDIndexServer.buildIndex` on a trimmed
line text. -/
def isChapterLine (text : String) : Bool :=
  testSectionChapterCI text.data ||
  testChapterBraceCI text.data ||
  testStartSectionCI text.data ||
  testChapterNumBraceCI text.data ||
  testHashChapterCI text.data ||
  testSectionChapterNumCS text.data

/-- Global replace of `/\\section\*?\{/g` by the empty string (the greedy
alternative with `*` is preferred at each position). -/
def stripSectionOpen : List Char → List Char
  | '\\' :: 's' :: 'e' :: 'c' :: 't' :: 'i' :: 'o' :: 'n' :: '*' :: '\x7b' :: rest =>
    stripSectionOpen rest
  | '\\' :: 's' :: 'e' :: 'c' :: 't' :: 'i' :: 'o' :: 'n' :: '\x7b' :: rest =>
    stripSectionOpen rest
  | c :: cs => c :: stripSectionOpen cs
  | [] => []

/-- Global replace of `/\\chapter\*?\{/g` by the empty string. -/
def stripChapterOpen : List Char → List Char
  | '\\' :: 'c' :: 'h' :: 'a' :: 'p' :: 't' :: 'e' :: 'r' :: '*' :: '\x7b' :: rest =>
    stripChapterOpen rest
  | '\\' :: 'c' :: 'h' :: 'a' :: 'p' :: 't' :: 'e' :: 'r' :: '\x7b' :: rest =>
    stripChapterOpen rest
  | c :: cs => c :: stripChapterOpen cs
  | [] => []

/-- Global replace of `/\\title\{/g` by the empty string. -/
def stripTitleOpen : List Char → List Char
  | '\\' :: 't' :: 'i' :: 't' :: 'l' :: 'e' :: '\x7b' :: rest =>
    stripTitleOpen rest
  | c :: cs => c :: stripTitleOpen cs
  | [] => []

/-- The title-cleaning pipeline of `buildIndex`: strip the section wrapper,
drop every `}`, strip chapter/title wrappers, then trim, truncate to 150
characters and replace newlines by spaces. -/
def cleanChapterTitle (text : String) : String :=
  let t1 : List Char := stripSectionOpen text.data
  let t2 : List Char := t1.filter (· ≠ '\x7d')
  let t3 : List Char := stripTitleOpen (stripChapterOpen t2)
  let t4 : String := jsSubstring (jsTrim ⟨t3⟩) 0 150
  ⟨t4.data.map (fun c => if c = '\n' then ' ' else c)⟩

/-! ## The server index state and `buildIndex` -/

/-- One detected heading (`this.chapters` entries). -/
structure ChapterRec where
  title : String
  lineNum : Nat
  page : Nat
deriving DecidableEq, Repr

/-- The mutable state accumulated by `buildIndex` while it walks the pages.
The JS `Map` is a total function defaulting to `[]`. -/
structure BState where
  lineTexts : List String
  textToLinesMap : String → List Nat
  chapters : List ChapterRec

/-- Point update of the map model. -/
def mapUpdate (m : String → List Nat) (k : String) (v : List Nat) :
    String → List Nat :=
  fun k' => if k' = k then v else m k'

/-- Punctuation-only test `/^[\\{}[\](),.;:!?'"]+$/` on a token. -/
def isPunctOnly (w : String) : Bool :=
  w.data ≠ [] && w.data.all (fun c =>
    c = '\\' || c = '\x7b' || c = '\x7d' || c = '[' || c = ']' ||
    c = '(' || c = ')' || c = ',' || c = '.' || c = ';' || c = ':' ||
    c = '!' || c = '?' || c = '\'' || c = '"')

/-- The word tokens indexed for one line: whitespace-split tokens of the
normalized text of length `> 3` that are not punctuation-only, capped to the
first 10. -/
def lineWords (normalizedText : String) : List String :=
  ((jsSplitWs normalizedText).filter
    (fun w => w.length > 3 && !(isPunctOnly w))).take 10

/-- Insert the current line into the full-text key (cap 50, no dedup
needed: each line is processed once). -/
def fullTextInsert (m : String → List Nat) (k : String) (lineNum : Nat) :
    String → List Nat :=
  let existing := m k
  if existing.length < 50 then mapUpdate m k (existing ++ [lineNum]) else m

/-- Insert the current line into one word key (dedup within the key, cap
100). -/
def wordInsert (lineNum : Nat) (m : String → List Nat) (w : String) :
    String → List Nat :=
  let occurrences := m w
  if lineNum ∉ occurrences ∧ occurrences.length < 100 then
    mapUpdate m w (occurrences ++ [lineNum])
  else m

/-- Processing of a single line inside `buildIndex` (the body of the inner
`for` loop), given the page number of the enclosing page. -/
def buildLine (pageNum : Nat) (st : BState) (ln : MMDLine) : BState :=
  let lineNum := st.lineTexts.length
  let lineText := ln.text
  let lineTexts' := st.lineTexts ++ [lineText]
  let normalizedText := jsLower (jsTrim lineText)
  let m1 :=
    if normalizedText ≠ "" && normalizedText.length > 2 then
      let m0 :=
        if normalizedText.length < 200 then
          fullTextInsert st.textToLinesMap normalizedText lineNum
        else st.textToLinesMap
      (lineWords normalizedText).foldl (wordInsert lineNum) m0
    else st.textToLinesMap
  let text := jsTrim lineText
  let chapters' :=
    if text.length > 5 && isChapterLine text then
      let title := cleanChapterTitle text
      st.chapters ++
        [{ title := if title ≠ "" then title else jsSubstring text 0 150
           lineNum := lineNum
           page := pageNum }]
    else st.chapters
  { lineTexts := lineTexts', textToLinesMap := m1, chapters := chapters' }

/-- Processing of one page inside `buildIndex`. -/
def buildPage (st : BState) (p : MMDPage) : BState :=
  p.lines.foldl (buildLine p.page) st

/-- The full `buildIndex` walk over all pages. -/
def buildAll (d : MMDLinesData) : BState :=
  d.pages.foldl buildPage
    { lineTexts := [], textToLinesMap := fun _ => [], chapters := [] }

/-- The in-memory index state of `MMDIndexServer`. -/
structure ServerIndex where
  linesData : Option MMDLinesData
  textToLinesMap : String → List Nat
  lineTexts : List String
  chapters : List ChapterRec
  loaded : Bool

/-- The state of an index that was never loaded (or whose load failed). -/
def ServerIndex.unloaded : ServerIndex :=
  { linesData := none
    textToLinesMap := fun _ => []
    lineTexts := []
    chapters := []
    loaded := false }

/-- `buildIndex` followed by the successful completion of `load`: the
chapters are finally sorted ascending by line number (a stable sort, as JS
`Array.prototype.sort` is). -/
def buildIndex (d : MMDLinesData) : ServerIndex :=
  let st := buildAll d
  { linesData := some d
    textToLinesMap := st.textToLinesMap
    lineTexts := st.lineTexts
    chapters := stableSort (fun a b => a.lineNum ≤ b.lineNum) st.chapters
    loaded := true }

/-! ## Query methods of `MMDIndexServer` -/

/-- Is the index in its operational state (`this.loaded && this.linesData`)? -/
def ServerIndex.isReady (idx : ServerIndex) : Bool :=
  idx.loaded && idx.linesData.isSome

/-- `MMDIndexServer.findTextLines`: exact-key lookup, per-token lookups and
a full containment scan, deduplicated (JS `Set`) and sorted ascending. -/
def findTextLines (idx : ServerIndex) (text : String) : List Nat :=
  if !idx.isReady then [] else
  let normalized := jsLower (jsTrim text)
  let exactMatch := idx.textToLinesMap normalized
  let words := (jsSplitWs normalized).filter (fun w => w.length > 2)
  let wordMatches := words.flatMap (fun w => idx.textToLinesMap w)
  let scan := (List.range idx.lineTexts.length).filter
    (fun i => jsIncludes (jsLower (idx.lineTexts.getD i "")) normalized)
  stableSort (fun a b => a ≤ b) ((exactMatch ++ wordMatches ++ scan).dedup)

/-- First maximal digit run in a string (`s.match(/(\d+)/)`). -/
def firstDigitRun : List Char → Option String
  | [] => none
  | c :: cs =>
    if c.isDigit then some ⟨c :: cs.takeWhile (·.isDigit)⟩
    else firstDigitRun cs

/-- The `\s+(\d+)` tail of `/chapter\s+(\d+)/i`: at least one whitespace
character, then the maximal digit run (at least one digit) right after the
maximal whitespace run, returned as the capture. -/
def wsDigitsCapture (cs : List Char) : Option String :=
  match cs with
  | c :: rest =>
    if isJsWs c then
      match rest.dropWhile isJsWs with
      | d :: ds => if d.isDigit then some ⟨d :: ds.takeWhile (·.isDigit)⟩ else none
      | [] => none
    else none
  | [] => none

/-- The capture of the leftmost match of `/chapter\s+(\d+)/i`
(`request.match(/chapter\s+(\d+)/i)`). -/
def chapterNumMatch : List Char → Option String
  | [] => none
  | c :: cs =>
    if prefixCI "chapter".data (c :: cs) then
      match wsDigitsCapture ((c :: cs).drop 7) with
      | some n => some n
      | none => chapterNumMatch cs
    else chapterNumMatch cs

/-- The capture of the leftmost match of `/section\s+(\d+)/i`. -/
def sectionNumMatch : List Char → Option String
  | [] => none
  | c :: cs =>
    if prefixCI "section".data (c :: cs) then
      match wsDigitsCapture ((c :: cs).drop 7) with
      | some n => some n
      | none => sectionNumMatch cs
    else sectionNumMatch cs

/-- `MMDIndexServer.getContextAroundLines`: a symmetric line radius around
each of the first 10 hit lines, deduplicated, sorted, and the line texts
concatenated. -/
def getContextAroundLines (idx : ServerIndex) (lineNums : List Nat)
    (contextLines : Nat) : String :=
  if !idx.isReady || lineNums.length = 0 then "" else
  let allContextLines := (lineNums.take 10).flatMap (fun lineNum =>
    let s := lineNum - contextLines
    let e := min idx.lineTexts.length (lineNum + contextLines + 1)
    List.range' s (e - s))
  let sortedLines := stableSort (fun a b => a ≤ b) allContextLines.dedup
  String.join (sortedLines.map (fun n => idx.lineTexts.getD n ""))

/-- One `findChapter` result (a heading plus its rendered context). -/
structure ChapterHit where
  title : String
  lineNum : Nat
  page : Nat
  context : String
deriving DecidableEq, Repr

/-- The substring-match condition of the primary `findChapter` loop. -/
def chapterMatchCond (normalizedQuery : String) (ch : ChapterRec) : Bool :=
  jsIncludes (jsLower ch.title) normalizedQuery ||
  jsIncludes normalizedQuery (jsSubstring (jsLower ch.title) 0 20)

/-- The secondary `findChapter` loop: match `Chapter <num>` / `chapter
<num>` literally in the title, deduplicating by line number against the
results accumulated so far. -/
def findChapterSecondary (idx : ServerIndex) (num : String) :
    List ChapterRec → List ChapterHit → List ChapterHit
  | [], results => results
  | ch :: rest, results =>
    if jsIncludes ch.title ("Chapter " ++ num) ||
       jsIncludes ch.title ("chapter " ++ num) then
      let context := getContextAroundLines idx [ch.lineNum] 20
      if results.any (fun r => r.lineNum = ch.lineNum) then
        findChapterSecondary idx num rest results
      else
        findChapterSecondary idx num rest
          (results ++ [{ title := ch.title, lineNum := ch.lineNum,
                         page := ch.page, context := context }])
    else findChapterSecondary idx num rest results

/-- `MMDIndexServer.findChapter`. -/
def findChapter (idx : ServerIndex) (query : String) : List ChapterHit :=
  if !idx.isReady then [] else
  let normalizedQuery := jsLower query
  let primary := (idx.chapters.filter (chapterMatchCond normalizedQuery)).map
    (fun ch => { title := ch.title, lineNum := ch.lineNum, page := ch.page,
                 context := getContextAroundLines idx [ch.lineNum] 20 })
  match firstDigitRun query.data with
  | some num => findChapterSecondary idx num idx.chapters primary
  | none => primary

/-- The record returned by `getDocumentStructure`. -/
structure DocStructure where
  chapters : List ChapterRec
  totalPages : Nat
  totalLines : Nat
deriving DecidableEq, Repr

/-- `MMDIndexServer.getDocumentStructure`. -/
def getDocumentStructure (idx : ServerIndex) : DocStructure :=
  match idx.linesData with
  | none => { chapters := [], totalPages := 0, totalLines := 0 }
  | some d =>
    if !idx.loaded then { chapters := [], totalPages := 0, totalLines := 0 }
    else { chapters := idx.chapters, totalPages := d.pages.length,
           totalLines := idx.lineTexts.length }

/-- The page-scanning loop of `getPageForLine`, accumulating per-page line
counts in page order. -/
def getPageForLineGo (lineNum : Nat) : List MMDPage → Nat → Option Nat
  | [], _ => none
  | p :: ps, currentLine =>
    if lineNum < currentLine + p.lines.length then some p.page
    else getPageForLineGo lineNum ps (currentLine + p.lines.length)

/-- `MMDIndexServer.getPageForLine`.  The final
`pages[pages.length - 1]?.page || 1` yields `1` both when there are no
pages and when the last page's number is the falsy `0`. -/
def getPageForLine (idx : ServerIndex) (lineNum : Nat) : Nat :=
  match idx.linesData with
  | none => 1
  | some d =>
    if !idx.loaded then 1 else
    match getPageForLineGo lineNum d.pages 0 with
    | some pg => pg
    | none =>
      match d.pages.getLast? with
      | some p => if p.page = 0 then 1 else p.page
      | none => 1

/-- One result of `findAllOccurrencesWithContext`. -/
structure Occurrence where
  lineNum : Nat
  text : String
  page : Nat
  context : String
deriving DecidableEq, Repr

/-- `MMDIndexServer.findAllOccurrencesWithContext`.  (The source also checks
`lineNum >= 0`, which is vacuous over `Nat`.) -/
def findAllOccurrencesWithContext (idx : ServerIndex) (text : String)
    (maxResults : Nat) : List Occurrence :=
  if !idx.isReady || jsTrim text = "" then [] else
  let searchText := jsLower (jsSubstring (jsTrim text) 0 200)
  let lineNums := findTextLines idx searchText
  let uniqueLineNums := lineNums.dedup.take maxResults
  uniqueLineNums.filterMap (fun lineNum =>
    if lineNum < idx.lineTexts.length then
      some { lineNum := lineNum
             text := jsSubstring (idx.lineTexts.getD lineNum "") 0 200
             page := getPageForLine idx lineNum
             context := jsSubstring (getContextAroundLines idx [lineNum] 8) 0 1000 }
    else none)

/-- JS `\w` word characters (`[A-Za-z0-9_]`). -/
def isWordChar (c : Char) : Bool :=
  c.isAlphanum || c = '_'

/-- Worker for `wordRuns`: `acc` holds the reversed current run of word
characters. -/
def wordRunsGo (minLen : Nat) : List Char → List Char → List String
  | [], acc => if minLen ≤ acc.length then [String.mk acc.reverse] else []
  | c :: cs, acc =>
    if isWordChar c then wordRunsGo minLen cs (c :: acc)
    else
      (if minLen ≤ acc.length then [String.mk acc.reverse] else []) ++
        wordRunsGo minLen cs []

/-- All matches of `/\b\w{minLen,}\b/g`: the maximal word-character runs of
length at least `minLen`. -/
def wordRuns (minLen : Nat) (cs : List Char) : List String :=
  wordRunsGo minLen cs []

/-- The `[Related Content]` keyword loop of `getEnhancedContext`, with its
break after two collected entries. -/
def relatedLoop (idx : ServerIndex) : List String → List String → List String
  | [], acc => acc
  | keyword :: rest, acc =>
    let hits := findTextLines idx keyword
    if hits.length > 0 && hits.length < 30 then
      let context := getContextAroundLines idx (hits.take 2) 3
      if context.length > 0 && context.length < 300 then
        let acc' := acc ++ [keyword ++ ": " ++ jsSubstring context 0 150 ++ "..."]
        if acc'.length ≥ 2 then acc' else relatedLoop idx rest acc'
      else relatedLoop idx rest acc
    else relatedLoop idx rest acc

/-- `MMDIndexServer.getEnhancedContext` (its `markdown` parameter is unused
in the source as well). -/
def getEnhancedContext (idx : ServerIndex) (_markdown : String)
    (selectedText : Option String) (request : String) : String :=
  if !idx.loaded then "" else
  let maxInfoLength : Nat := 1500
  let ei0 : String := ""
  let ei1 :=
    match chapterNumMatch request.data with
    | some chapterNum =>
      let chapters := findChapter idx ("Chapter " ++ chapterNum)
      if chapters.length > 0 && ei0.length < maxInfoLength then
        let hdr := "\n\n[Document Structure] Found " ++ toString chapters.length ++
          " occurrence(s) of Chapter " ++ chapterNum ++ ":\n"
        let body := String.join ((chapters.take 5).map (fun ch =>
          "- Page " ++ toString ch.page ++ ", Line " ++ toString ch.lineNum ++
            ": " ++ jsSubstring ch.title 0 60 ++ "\n"))
        let more :=
          if chapters.length > 5 then
            "... and " ++ toString (chapters.length - 5) ++ " more occurrence(s)\n"
          else ""
        ei0 ++ hdr ++ body ++ more
      else ei0
    | none => ei0
  let ei2 :=
    match selectedText with
    | some s =>
      if s ≠ "" && (jsTrim s).length < 500 then
        let occurrences := findAllOccurrencesWithContext idx s 3
        if occurrences.length > 0 && ei1.length < maxInfoLength then
          let hdr := "\n\n[Selected Text Location] Found at:\n"
          let body := String.join (occurrences.map (fun occ =>
            "- Page " ++ toString occ.page ++ ", Line " ++ toString occ.lineNum ++ "\n"))
          let warn :=
            if occurrences.length > 1 then
              "⚠️ IMPORTANT: This text appears " ++ toString occurrences.length ++
                " times. Update ALL occurrences.\n"
            else ""
          ei1 ++ hdr ++ body ++ warn
        else ei1
      else ei1
    | none => ei1
  let ei3 :=
    if ei2.length < maxInfoLength then
      let keywords := (wordRuns 5 request.data).take 2
      if keywords.length > 0 then
        let relevantInfo := relatedLoop idx keywords []
        if relevantInfo.length > 0 &&
            ei2.length + (String.intercalate "\n" relevantInfo).length < maxInfoLength then
          ei2 ++ "\n\n[Related Content]\n" ++ String.intercalate "\n\n" relevantInfo
        else ei2
      else ei2
    else ei2
  jsSubstring ei3 0 1500

/-! ## Helper lemmas -/

theorem length_mk (l : List Char) : (String.mk l).length = l.length := rfl

theorem jsSubstring_length_le (s : String) (a b : Nat) :
    (jsSubstring s a b).length ≤ max a b := by
  show ((s.data.drop _).take _).length ≤ max a b
  simp [List.length_take, List.length_drop]
  omega

theorem jsSubstring_zero_length_le (s : String) (k : Nat) :
    (jsSubstring s 0 k).length ≤ k := by
  have h := jsSubstring_length_le s 0 k
  simpa using h

theorem stableInsert_perm {α : Type} (le : α → α → Bool) (x : α) (l : List α) :
    (stableInsert le x l).Perm (x :: l) := by
  induction l with
  | nil => exact List.Perm.refl _
  | cons y ys ih =>
    cases hcmp : le y x with
    | true =>
      simp only [stableInsert, hcmp, if_true]
      exact (ih.cons y).trans (List.Perm.swap x y ys)
    | false =>
      simp only [stableInsert, hcmp, Bool.false_eq_true, if_false]
      exact List.Perm.refl _

theorem stableSort_go_perm {α : Type} (le : α → α → Bool) (l acc : List α) :
    (l.foldl (fun acc x => stableInsert le x acc) acc).Perm (acc ++ l) := by
  induction l generalizing acc with
  | nil => simp
  | cons x xs ih =>
    simp only [List.foldl_cons]
    have h1 := ih (stableInsert le x acc)
    have h2 : (stableInsert le x acc ++ xs).Perm ((x :: acc) ++ xs) :=
      (stableInsert_perm le x acc).append_right xs
    have h3 : ((x :: acc) ++ xs).Perm (acc ++ x :: xs) := List.perm_middle.symm
    exact (h1.trans h2).trans h3

theorem stableSort_perm {α : Type} (le : α → α → Bool) (l : List α) :
    (stableSort le l).Perm l := by
  simpa using stableSort_go_perm le l []

theorem stableInsert_pairwise {α : Type} {le : α → α → Bool}
    (htot : ∀ a b, le a b = false → le b a = true)
    (htrans : ∀ a b c, le a b = true → le b c = true → le a c = true)
    (x : α) {l : List α} (h : List.Pairwise (fun a b => le a b = true) l) :
    List.Pairwise (fun a b => le a b = true) (stableInsert le x l) := by
  induction l with
  | nil => simp [stableInsert]
  | cons y ys ih =>
    rcases List.pairwise_cons.mp h with ⟨hy, hys⟩
    cases hcmp : le y x with
    | true =>
      simp only [stableInsert, hcmp, if_true]
      refine List.pairwise_cons.mpr ⟨?_, ih hys⟩
      intro z hz
      rcases List.mem_cons.mp (((stableInsert_perm le x ys).mem_iff).mp hz) with hz1 | hz1
      · rw [hz1]; exact hcmp
      · exact hy z hz1
    | false =>
      simp only [stableInsert, hcmp, Bool.false_eq_true, if_false]
      refine List.pairwise_cons.mpr ⟨?_, h⟩
      intro z hz
      rcases List.mem_cons.mp hz with hz1 | hz1
      · rw [hz1]
        exact htot y x hcmp
      · exact htrans x y z (htot y x hcmp) (hy z hz1)

theorem stableSort_pairwise {α : Type} {le : α → α → Bool}
    (htot : ∀ a b, le a b = false → le b a = true)
    (htrans : ∀ a b c, le a b = true → le b c = true → le a c = true)
    (l : List α) :
    List.Pairwise (fun a b => le a b = true) (stableSort le l) := by
  have hgo : ∀ acc, List.Pairwise (fun a b => le a b = true) acc →
      List.Pairwise (fun a b => le a b = true)
        (l.foldl (fun acc x => stableInsert le x acc) acc) := by
    induction l with
    | nil => intro acc hacc; exact hacc
    | cons x xs ih =>
      intro acc hacc
      exact ih _ (stableInsert_pairwise htot htrans x hacc)
  exact hgo [] (List.Pairwise.nil)

/-- Sorting the deduplication of any list of naturals is strictly sorted. -/
theorem sortedLt_dedup_stableSort (l : List Nat) :
    List.Sorted (· < ·) (stableSort (fun a b => a ≤ b) (l.dedup)) := by
  have hperm := stableSort_perm (fun a b : Nat => a ≤ b) l.dedup
  have hnd : (stableSort (fun a b => a ≤ b) l.dedup).Nodup :=
    (hperm.nodup_iff).mpr l.nodup_dedup
  have hs := @stableSort_pairwise Nat (fun a b : Nat => a ≤ b)
    (fun a b hab => by simp only [decide_eq_false_iff_not, decide_eq_true_eq, Nat.not_le] at *; omega)
    (fun a b c hab hbc => by simp only [decide_eq_true_eq] at *; omega) l.dedup
  have hle : List.Pairwise (fun a b : Nat => a ≤ b)
      (stableSort (fun a b => a ≤ b) l.dedup) :=
    hs.imp (fun h => by simpa using h)
  have hne : List.Pairwise (fun a b : Nat => a ≠ b)
      (stableSort (fun a b => a ≤ b) l.dedup) := hnd
  exact (hle.and hne).imp (fun h => lt_of_le_of_ne h.1 h.2)

theorem mem_dedup_stableSort {l : List Nat} {i : Nat} (h : i ∈ l) :
    i ∈ stableSort (fun a b => a ≤ b) (l.dedup) :=
  ((stableSort_perm _ _).mem_iff).mpr (List.mem_dedup.mpr h)

theorem buildIndex_isReady (d : MMDLinesData) : (buildIndex d).isReady = true := rfl

/-- Invariance of a predicate under a left fold, with membership of the
processed element available at each step. -/
theorem foldl_inv {α β : Type} {P : α → Prop} (f : α → β → α) (l : List β)
    (init : α) (h0 : P init)
    (hstep : ∀ st b, b ∈ l → P st → P (f st b)) : P (l.foldl f init) := by
  induction l generalizing init with
  | nil => exact h0
  | cons b bs ih =>
    exact ih (f init b) (hstep init b (List.mem_cons_self b bs) h0)
      (fun st x hx hP => hstep st x (List.mem_cons_of_mem b hx) hP)

/-! ## Claim C2 -/

/-- **C2** (confirmed): for every built index and fragment, `findTextLines`
returns a strictly ascending duplicate-free list of global line indices,
and every line whose lowercased text contains the trimmed lowercased
fragment as a substring is included. -/
theorem C2_findTextLines_sorted_and_complete (d : MMDLinesData) (text : String) :
    List.Sorted (· < ·) (findTextLines (buildIndex d) text) ∧
    ∀ i : Nat, i < (buildIndex d).lineTexts.length →
      jsIncludes (jsLower ((buildIndex d).lineTexts.getD i ""))
        (jsLower (jsTrim text)) = true →
      i ∈ findTextLines (buildIndex d) text := by
  simp only [findTextLines, buildIndex_isReady, Bool.not_true,
    Bool.false_eq_true, if_false]
  constructor
  · exact sortedLt_dedup_stableSort _
  · intro i hi hinc
    refine mem_dedup_stableSort (List.mem_append_right _ ?_)
    exact List.mem_filter.mpr ⟨List.mem_range.mpr hi, hinc⟩

/-- Witness for C2 on a concrete two-page document and the fragment
`"world"`: line 0 contains the fragment and is returned. -/
def wDoc : MMDLinesData :=
  { pages := [
      { image_id := "p1", page := 1,
        lines := [ { text := "Hello world\n", line := 1, column := 0 },
                   { text := "\\section*\x7bChapter 3: Origins\x7d\n", line := 2, column := 0 },
                   { text := "some text about origins\n", line := 3, column := 0 } ] },
      { image_id := "p2", page := 2,
        lines := [ { text := "world again\n", line := 1, column := 0 } ] } ] }

theorem C2_witness :
    0 < (buildIndex wDoc).lineTexts.length ∧
    jsIncludes (jsLower ((buildIndex wDoc).lineTexts.getD 0 ""))
      (jsLower (jsTrim "world")) = true ∧
    0 ∈ findTextLines (buildIndex wDoc) "world" :=
  ⟨by decide, by decide,
    (C2_findTextLines_sorted_and_complete wDoc "world").2 0 (by decide) (by decide)⟩

/-! ## Claim C6 -/

/-- **C6** (confirmed): every occurrence returned by
`findAllOccurrencesWithContext` has a context window of at most 1000
characters, a line-text snippet of at most 200 characters, and a global
line index within the document bounds. -/
theorem C6_occurrence_caps (d : MMDLinesData) (text : String) (maxResults : Nat) :
    ∀ occ ∈ findAllOccurrencesWithContext (buildIndex d) text maxResults,
      occ.context.length ≤ 1000 ∧ occ.text.length ≤ 200 ∧
      occ.lineNum < (buildIndex d).lineTexts.length := by
  intro occ hocc
  simp only [findAllOccurrencesWithContext, buildIndex_isReady, Bool.not_true,
    Bool.false_or] at hocc
  by_cases htrim : jsTrim text = ""
  · simp [htrim] at hocc
  · simp only [htrim, if_false, decide_eq_true_eq] at hocc
    rcases List.mem_filterMap.mp hocc with ⟨n, _, hn⟩
    by_cases hlt : n < (buildIndex d).lineTexts.length
    · simp only [hlt, if_true, Option.some.injEq] at hn
      subst hn
      exact ⟨jsSubstring_zero_length_le _ _, jsSubstring_zero_length_le _ _, hlt⟩
    · simp [hlt] at hn

theorem C6_witness :
    (Occurrence.mk 0 "Hello world\n" 1
        "Hello world\n\\section*\x7bChapter 3: Origins\x7d\nsome text about origins\nworld again\n"
      ∈ findAllOccurrencesWithContext (buildIndex wDoc) "world" 5) ∧
    ("Hello world\n\\section*\x7bChapter 3: Origins\x7d\nsome text about origins\nworld again\n".length ≤ 1000 ∧
     "Hello world\n".length ≤ 200 ∧ 0 < (buildIndex wDoc).lineTexts.length) := by
  have hmem : Occurrence.mk 0 "Hello world\n" 1
      "Hello world\n\\section*\x7bChapter 3: Origins\x7d\nsome text about origins\nworld again\n"
      ∈ findAllOccurrencesWithContext (buildIndex wDoc) "world" 5 := by decide
  exact ⟨hmem, C6_occurrence_caps wDoc "world" 5 _ hmem⟩

/-! ## Claim C9 -/

/-- **C9** (confirmed): whenever the index is not loaded, every query
method degrades to an empty result: `findTextLines`, `findChapter` and
`findAllOccurrencesWithContext` return empty lists,
`getContextAroundLines` and `getEnhancedContext` return empty strings, and
`getDocumentStructure` reports no chapters, zero pages and zero lines. -/
theorem C9_unloaded_empty (idx : ServerIndex) (h : idx.loaded = false) :
    (∀ t, findTextLines idx t = []) ∧
    (∀ q, findChapter idx q = []) ∧
    (∀ t m, findAllOccurrencesWithContext idx t m = []) ∧
    (∀ ls n, getContextAroundLines idx ls n = "") ∧
    (∀ md sel req, getEnhancedContext idx md sel req = "") ∧
    getDocumentStructure idx = { chapters := [], totalPages := 0, totalLines := 0 } := by
  have hr : idx.isReady = false := by
    simp [ServerIndex.isReady, h]
  refine ⟨?_, ?_, ?_, ?_, ?_, ?_⟩
  · intro t; simp [findTextLines, hr]
  · intro q; simp [findChapter, hr]
  · intro t m; simp [findAllOccurrencesWithContext, hr]
  · intro ls n; simp [getContextAroundLines, hr]
  · intro md sel req; simp [getEnhancedContext, h]
  · cases hd : idx.linesData with
    | none => simp [getDocumentStructure, hd]
    | some d => simp [getDocumentStructure, hd, h]

theorem C9_witness :
    ServerIndex.unloaded.loaded = false ∧
    findTextLines ServerIndex.unloaded "world" = [] ∧
    findChapter ServerIndex.unloaded "Chapter 3" = [] ∧
    findAllOccurrencesWithContext ServerIndex.unloaded "world" 5 = [] ∧
    getContextAroundLines ServerIndex.unloaded [0] 15 = "" ∧
    getEnhancedContext ServerIndex.unloaded "doc" (some "x") "req" = "" ∧
    getDocumentStructure ServerIndex.unloaded =
      { chapters := [], totalPages := 0, totalLines := 0 } := by
  obtain ⟨h1, h2, h3, h4, h5, h6⟩ := C9_unloaded_empty ServerIndex.unloaded rfl
  exact ⟨rfl, h1 "world", h2 "Chapter 3", h3 "world" 5, h4 [0] 15,
    h5 "doc" (some "x") "req", h6⟩

/-! ## Claim C8: token index invariants -/

/-- All word tokens that the build loop ever feeds into the word-key path,
collected directly from the document. -/
def docWordTokens (d : MMDLinesData) : List String :=
  d.pages.flatMap (fun p => p.lines.flatMap (fun ln =>
    let n := jsLower (jsTrim ln.text)
    if n ≠ "" && n.length > 2 then lineWords n else []))

/-- All keys that the build loop ever feeds into the full-line-text path. -/
def docFullLineKeys (d : MMDLinesData) : List String :=
  d.pages.flatMap (fun p => p.lines.flatMap (fun ln =>
    let n := jsLower (jsTrim ln.text)
    if n ≠ "" && n.length > 2 && n.length < 200 then [n] else []))

/-- Invariant of the token-index map during the build: every per-key list is
strictly increasing, bounded by the number of lines processed so far, holds
at most 100 indices, and holds at most 50 indices unless the key occurs as
a word token somewhere in the document. -/
def LineInv (d : MMDLinesData) (bound : Nat) (m : String → List Nat) : Prop :=
  ∀ k : String,
    List.Pairwise (· < ·) (m k) ∧
    (∀ x ∈ m k, x < bound) ∧
    (m k).length ≤ 100 ∧
    (k ∉ docWordTokens d → (m k).length ≤ 50)

theorem lineInv_mono {d : MMDLinesData} {b b' : Nat} {m : String → List Nat}
    (h : LineInv d b m) (hb : b ≤ b') : LineInv d b' m := by
  intro k
  exact ⟨(h k).1, fun x hx => lt_of_lt_of_le ((h k).2.1 x hx) hb, (h k).2.2⟩

theorem pairwise_append_singleton {v : List Nat} {n : Nat}
    (hv : List.Pairwise (· < ·) v) (hlt : ∀ x ∈ v, x < n) :
    List.Pairwise (· < ·) (v ++ [n]) := by
  refine List.pairwise_append.mpr ⟨hv, List.pairwise_singleton _ _, ?_⟩
  intro a ha b hb
  rcases List.mem_singleton.mp hb with rfl
  exact hlt a ha

theorem fullTextInsert_inv {d : MMDLinesData} {n : Nat} {m : String → List Nat}
    (key : String) (h : LineInv d n m) :
    LineInv d (n + 1) (fullTextInsert m key n) := by
  intro k
  unfold fullTextInsert
  by_cases hlen : (m key).length < 50
  · simp only [hlen, if_true]
    by_cases hk : k = key
    · subst hk
      simp only [mapUpdate, if_pos rfl, if_true]
      refine ⟨pairwise_append_singleton (h k).1 ((h k).2.1), ?_, ?_, ?_⟩
      · intro x hx
        rcases List.mem_append.mp hx with hx1 | hx1
        · exact lt_trans ((h k).2.1 x hx1) (Nat.lt_succ_self _)
        · have hx2 := List.mem_singleton.mp hx1
          omega
      · simp only [List.length_append, List.length_cons, List.length_nil]
        omega
      · intro _
        simp only [List.length_append, List.length_cons, List.length_nil]
        omega
    · simp only [mapUpdate, if_neg hk]
      exact lineInv_mono h (Nat.le_succ n) k
  · simp only [hlen, if_false]
    exact lineInv_mono h (Nat.le_succ n) k

theorem wordInsert_inv {d : MMDLinesData} {n : Nat} {m : String → List Nat}
    {w : String} (hw : w ∈ docWordTokens d) (h : LineInv d (n + 1) m) :
    LineInv d (n + 1) (wordInsert n m w) := by
  intro k
  unfold wordInsert
  by_cases hcond : n ∉ m w ∧ (m w).length < 100
  · simp only [if_pos hcond]
    by_cases hk : k = w
    · subst hk
      simp only [mapUpdate, if_pos rfl, if_true]
      have hlt : ∀ x ∈ m k, x < n := by
        intro x hx
        have hx1 := (h k).2.1 x hx
        have : x ≠ n := fun he => hcond.1 (he ▸ hx)
        omega
      refine ⟨pairwise_append_singleton (h k).1 hlt, ?_, ?_, ?_⟩
      · intro x hx
        rcases List.mem_append.mp hx with hx1 | hx1
        · exact (h k).2.1 x hx1
        · have hx2 := List.mem_singleton.mp hx1
          omega
      · have h100 := hcond.2
        simp only [List.length_append, List.length_cons, List.length_nil]
        omega
      · intro hk'
        exact absurd hw hk'
    · simp only [mapUpdate, if_neg hk]
      exact h k
  · simp only [if_neg hcond]
    exact h k

/-- The invariant carried through the whole build. -/
def MapInv (d : MMDLinesData) (st : BState) : Prop :=
  LineInv d st.lineTexts.length st.textToLinesMap

theorem buildLine_mapInv {d : MMDLinesData} {p : MMDPage} (hp : p ∈ d.pages)
    {ln : MMDLine} (hln : ln ∈ p.lines) {st : BState} (h : MapInv d st) :
    MapInv d (buildLine p.page st ln) := by
  have hlen : (buildLine p.page st ln).lineTexts.length = st.lineTexts.length + 1 := by
    simp [buildLine]
  unfold MapInv
  rw [hlen]
  show LineInv d (st.lineTexts.length + 1) (buildLine p.page st ln).textToLinesMap
  have hmap : (buildLine p.page st ln).textToLinesMap =
      (if (jsLower (jsTrim ln.text) ≠ "" && (jsLower (jsTrim ln.text)).length > 2) = true then
        (lineWords (jsLower (jsTrim ln.text))).foldl (wordInsert st.lineTexts.length)
          (if (jsLower (jsTrim ln.text)).length < 200 then
            fullTextInsert st.textToLinesMap (jsLower (jsTrim ln.text)) st.lineTexts.length
          else st.textToLinesMap)
      else st.textToLinesMap) := by
    simp [buildLine]
  rw [hmap]
  by_cases hg : (jsLower (jsTrim ln.text) ≠ "" && (jsLower (jsTrim ln.text)).length > 2) = true
  · simp only [hg, if_true]
    have hm0 : LineInv d (st.lineTexts.length + 1)
        (if (jsLower (jsTrim ln.text)).length < 200 then
          fullTextInsert st.textToLinesMap (jsLower (jsTrim ln.text)) st.lineTexts.length
        else st.textToLinesMap) := by
      by_cases h200 : (jsLower (jsTrim ln.text)).length < 200
      · simp only [h200, if_true]
        exact fullTextInsert_inv _ h
      · simp only [h200, if_false]
        exact lineInv_mono h (Nat.le_succ _)
    refine foldl_inv _ _ _ hm0 ?_
    intro m w hwmem hm
    have hw : w ∈ docWordTokens d := by
      unfold docWordTokens
      refine List.mem_flatMap.mpr ⟨p, hp, ?_⟩
      refine List.mem_flatMap.mpr ⟨ln, hln, ?_⟩
      show w ∈ (if (jsLower (jsTrim ln.text) ≠ "" && (jsLower (jsTrim ln.text)).length > 2) = true
          then lineWords (jsLower (jsTrim ln.text)) else [])
      rw [if_pos hg]
      exact hwmem
    exact wordInsert_inv hw hm
  · simp only [hg, if_false]
    exact lineInv_mono h (Nat.le_succ _)

theorem buildAll_mapInv (d : MMDLinesData) : MapInv d (buildAll d) := by
  unfold buildAll
  refine foldl_inv _ _ _ ?_ ?_
  · intro k
    refine ⟨List.Pairwise.nil, ?_, ?_, ?_⟩ <;> simp
  · intro st p hp hP
    unfold buildPage
    refine foldl_inv _ _ _ hP ?_
    intro st' ln hln h'
    exact buildLine_mapInv hp hln h'

/-- **C8** (corrected): after `buildIndex`, every per-key list in the token
index is strictly increasing (ordered with no duplicates) and holds at most
100 line indices; a key that never occurs as a word token of any line holds
at most 50 indices.  The original claim's unconditional 50-cap for
full-line-text keys fails when the same key is also fed by the word-token
path, which caps at 100 (see the counterexample). -/
theorem C8_token_index_bounds (d : MMDLinesData) (k : String) :
    List.Pairwise (· < ·) ((buildIndex d).textToLinesMap k) ∧
    ((buildIndex d).textToLinesMap k).length ≤ 100 ∧
    (k ∉ docWordTokens d → ((buildIndex d).textToLinesMap k).length ≤ 50) := by
  have hinv := buildAll_mapInv d
  have hmap : (buildIndex d).textToLinesMap = (buildAll d).textToLinesMap := by
    simp [buildIndex]
  rw [hmap]
  exact ⟨(hinv k).1, (hinv k).2.2.1, (hinv k).2.2.2⟩

theorem C8_witness :
    "zzzz" ∉ docWordTokens wDoc ∧
    ((buildIndex wDoc).textToLinesMap "zzzz").length ≤ 50 :=
  ⟨by decide, (C8_token_index_bounds wDoc "zzzz").2.2 (by decide)⟩

/-- A pathological document: 60 identical lines reading `abcd`.  The key
`abcd` is a full-line-text key, yet it ends up holding 60 > 50 indices:
the first 50 lines enter through the full-text path and the remaining 10
through the word-token path (cap 100). -/
def cDoc8 : MMDLinesData :=
  { pages := [
      { image_id := "p1", page := 1,
        lines := List.replicate 60 { text := "abcd", line := 1, column := 0 } } ] }

set_option maxRecDepth 10000 in
/-- Counterexample to C8 as stated: a full-line-text key holding more than
50 line indices. -/
theorem C8_counterexample :
    "abcd" ∈ docFullLineKeys cDoc8 ∧
    50 < ((buildIndex cDoc8).textToLinesMap "abcd").length := by
  constructor
  · decide
  · decide

/-! ## Claim C7: heading registration during the build -/

theorem buildLine_chapters (pg : Nat) (st : BState) (ln : MMDLine) :
    (buildLine pg st ln).chapters =
      st.chapters ++
        (if ((jsTrim ln.text).length > 5 && isChapterLine (jsTrim ln.text)) = true then
          [{ title := if cleanChapterTitle (jsTrim ln.text) ≠ "" then
                        cleanChapterTitle (jsTrim ln.text)
                      else jsSubstring (jsTrim ln.text) 0 150
             lineNum := st.lineTexts.length
             page := pg }]
        else []) := by
  by_cases h : ((jsTrim ln.text).length > 5 && isChapterLine (jsTrim ln.text)) = true
  · simp [buildLine, h]
  · simp [buildLine, h]

theorem chapters_mono_lines (pg : Nat) (lines : List MMDLine) (st : BState)
    {e : ChapterRec} (h : e ∈ st.chapters) :
    e ∈ (lines.foldl (buildLine pg) st).chapters := by
  refine @foldl_inv BState _ (fun (st : BState) => e ∈ st.chapters) _ _ _ h ?_
  intro st' ln' _ hP
  rw [buildLine_chapters]
  exact List.mem_append_left _ hP

theorem chapters_mono_pages (pages : List MMDPage) (st : BState)
    {e : ChapterRec} (h : e ∈ st.chapters) :
    e ∈ (pages.foldl buildPage st).chapters := by
  refine @foldl_inv BState _ (fun (st : BState) => e ∈ st.chapters) _ _ _ h ?_
  intro st' p' _ hP
  exact chapters_mono_lines p'.page p'.lines st' hP

/-- **C7** (confirmed): a line whose trimmed text reads
`\section*{Chapter 3: Origins}` is registered during the build as a heading
whose title contains `Chapter 3` and whose page number equals the page
number of the enclosing page. -/
theorem C7_heading_registered (d : MMDLinesData) (p : MMDPage) (hp : p ∈ d.pages)
    (ln : MMDLine) (hln : ln ∈ p.lines)
    (htext : jsTrim ln.text = "\\section*\x7bChapter 3: Origins\x7d") :
    ∃ ch ∈ (buildIndex d).chapters,
      jsIncludes ch.title "Chapter 3" = true ∧ ch.page = p.page := by
  obtain ⟨l1, l2, hpages⟩ := List.append_of_mem hp
  obtain ⟨m1, m2, hlines⟩ := List.append_of_mem hln
  have hinit : ∀ st : BState, ∃ ch ∈ (buildLine p.page st ln).chapters,
      jsIncludes ch.title "Chapter 3" = true ∧ ch.page = p.page := by
    intro st
    rw [buildLine_chapters]
    have hcond : ((jsTrim ln.text).length > 5 && isChapterLine (jsTrim ln.text)) = true := by
      rw [htext]; decide
    rw [if_pos hcond, htext]
    refine ⟨_, List.mem_append_right _ (List.mem_singleton.mpr rfl), ?_, rfl⟩
    show jsIncludes (if cleanChapterTitle "\\section*\x7bChapter 3: Origins\x7d" ≠ "" then
        cleanChapterTitle "\\section*\x7bChapter 3: Origins\x7d"
      else jsSubstring "\\section*\x7bChapter 3: Origins\x7d" 0 150) "Chapter 3" = true
    decide
  have hball : ∃ ch ∈ (buildAll d).chapters,
      jsIncludes ch.title "Chapter 3" = true ∧ ch.page = p.page := by
    unfold buildAll
    rw [hpages, List.foldl_append]
    have hpage : ∃ ch ∈ (buildPage (l1.foldl buildPage
        { lineTexts := [], textToLinesMap := fun _ => [], chapters := [] }) p).chapters,
        jsIncludes ch.title "Chapter 3" = true ∧ ch.page = p.page := by
      unfold buildPage
      rw [hlines, List.foldl_append]
      obtain ⟨ch, hch, hprop⟩ := hinit (m1.foldl (buildLine p.page) _)
      refine ⟨ch, ?_, hprop⟩
      simp only [List.foldl_cons]
      exact chapters_mono_lines p.page m2 _ hch
    obtain ⟨ch, hch, hprop⟩ := hpage
    exact ⟨ch, chapters_mono_pages l2 _ hch, hprop⟩
  obtain ⟨ch, hch, hprop⟩ := hball
  refine ⟨ch, ?_, hprop⟩
  have hperm := stableSort_perm (fun a b : ChapterRec => a.lineNum ≤ b.lineNum)
    (buildAll d).chapters
  have : (buildIndex d).chapters =
      stableSort (fun a b => a.lineNum ≤ b.lineNum) (buildAll d).chapters := by
    simp [buildIndex]
  rw [this]
  exact (hperm.mem_iff).mpr hch

theorem C7_witness :
    ∃ ch ∈ (buildIndex wDoc).chapters,
      jsIncludes ch.title "Chapter 3" = true ∧ ch.page = 1 :=
  C7_heading_registered wDoc
    { image_id := "p1", page := 1,
      lines := [ { text := "Hello world\n", line := 1, column := 0 },
                 { text := "\\section*\x7bChapter 3: Origins\x7d\n", line := 2, column := 0 },
                 { text := "some text about origins\n", line := 3, column := 0 } ] }
    (by decide)
    { text := "\\section*\x7bChapter 3: Origins\x7d\n", line := 2, column := 0 }
    (by decide) (by decide)

/-! ## Claim C10: getPageForLine -/

theorem getPageForLineGo_spec (lineNum : Nat) (pages : List MMDPage) :
    ∀ (acc k : Nat) (hk : k < pages.length),
    acc + ((pages.take k).map (fun p => p.lines.length)).sum ≤ lineNum →
    lineNum < acc + ((pages.take (k+1)).map (fun p => p.lines.length)).sum →
    getPageForLineGo lineNum pages acc = some ((pages.get ⟨k, hk⟩).page) := by
  induction pages with
  | nil => intro acc k hk; exact absurd hk (by simp)
  | cons p ps ih =>
    intro acc k hk h1 h2
    cases k with
    | zero =>
      simp only [List.take_succ_cons, List.take_zero, List.map_cons, List.map_nil,
        List.sum_cons, List.sum_nil] at h2
      unfold getPageForLineGo
      rw [if_pos (by omega)]
      rfl
    | succ k' =>
      simp only [List.take_succ_cons, List.map_cons, List.sum_cons] at h1 h2
      have hcond : ¬ lineNum < acc + p.lines.length := by omega
      unfold getPageForLineGo
      rw [if_neg hcond]
      have hk' : k' < ps.length := by simpa using hk
      have := ih (acc + p.lines.length) k' hk' (by omega) (by omega)
      rw [this]
      rfl

theorem getPageForLineGo_none (lineNum : Nat) (pages : List MMDPage) :
    ∀ acc : Nat,
    acc + (pages.map (fun p => p.lines.length)).sum ≤ lineNum →
    getPageForLineGo lineNum pages acc = none := by
  induction pages with
  | nil => intro acc _; rfl
  | cons p ps ih =>
    intro acc h
    simp only [List.map_cons, List.sum_cons] at h
    unfold getPageForLineGo
    rw [if_neg (by omega)]
    exact ih (acc + p.lines.length) (by omega)

theorem buildLine_lineTexts (pg : Nat) (st : BState) (ln : MMDLine) :
    (buildLine pg st ln).lineTexts = st.lineTexts ++ [ln.text] := by
  simp [buildLine]

theorem foldl_lines_lineTexts (pg : Nat) (lines : List MMDLine) (st : BState) :
    (lines.foldl (buildLine pg) st).lineTexts =
      st.lineTexts ++ lines.map (fun l => l.text) := by
  induction lines generalizing st with
  | nil => simp
  | cons ln rest ih =>
    simp only [List.foldl_cons, List.map_cons]
    rw [ih, buildLine_lineTexts]
    simp

theorem foldl_pages_lineTexts (pages : List MMDPage) (st : BState) :
    (pages.foldl buildPage st).lineTexts =
      st.lineTexts ++ pages.flatMap (fun p => p.lines.map (fun l => l.text)) := by
  induction pages generalizing st with
  | nil => simp
  | cons p ps ih =>
    simp only [List.foldl_cons, List.flatMap_cons]
    rw [ih]
    unfold buildPage
    rw [foldl_lines_lineTexts]
    simp

theorem buildIndex_totalLines (d : MMDLinesData) :
    (buildIndex d).lineTexts.length = (d.pages.map (fun p => p.lines.length)).sum := by
  have h1 : (buildIndex d).lineTexts = (buildAll d).lineTexts := by simp [buildIndex]
  rw [h1]
  unfold buildAll
  rw [foldl_pages_lineTexts]
  simp [List.length_flatMap, Function.comp_def, List.length_map]

/-- **C10** (corrected): `getPageForLine` is total: when the index is not
loaded it returns 1; for an in-range line index it returns the page number
of the page containing that line (accumulating per-page line counts in page
order); and for an out-of-range index it returns the page number of the
last page when that number is nonzero, and 1 when there are no pages or
the last page's number is the falsy 0 (the original claim misses this last
case, introduced by the source's `?.page || 1`). -/
theorem C10_getPageForLine_total (d : MMDLinesData) (lineNum : Nat) :
    (∀ idx : ServerIndex, idx.loaded = false → getPageForLine idx lineNum = 1) ∧
    (buildIndex d).lineTexts.length = (d.pages.map (fun p => p.lines.length)).sum ∧
    (∀ (k : Nat) (hk : k < d.pages.length),
      ((d.pages.take k).map (fun p => p.lines.length)).sum ≤ lineNum →
      lineNum < ((d.pages.take (k+1)).map (fun p => p.lines.length)).sum →
      getPageForLine (buildIndex d) lineNum = (d.pages.get ⟨k, hk⟩).page) ∧
    ((d.pages.map (fun p => p.lines.length)).sum ≤ lineNum →
      getPageForLine (buildIndex d) lineNum =
        (match d.pages.getLast? with
         | some p => if p.page = 0 then 1 else p.page
         | none => 1)) := by
  refine ⟨?_, buildIndex_totalLines d, ?_, ?_⟩
  · intro idx h
    unfold getPageForLine
    cases hd : idx.linesData with
    | none => rfl
    | some d' => rw [h]; rfl
  · intro k hk h1 h2
    have hgo := getPageForLineGo_spec lineNum d.pages 0 k hk (by omega) (by omega)
    have hld : (buildIndex d).linesData = some d := by simp [buildIndex]
    have hloaded : (buildIndex d).loaded = true := by simp [buildIndex]
    unfold getPageForLine
    rw [hld]
    simp only [hloaded, Bool.not_true, Bool.false_eq_true, if_false]
    rw [hgo]
  · intro h
    have hgo := getPageForLineGo_none lineNum d.pages 0 (by omega)
    have hld : (buildIndex d).linesData = some d := by simp [buildIndex]
    have hloaded : (buildIndex d).loaded = true := by simp [buildIndex]
    unfold getPageForLine
    rw [hld]
    simp only [hloaded, Bool.not_true, Bool.false_eq_true, if_false]
    rw [hgo]

theorem C10_witness :
    getPageForLine ServerIndex.unloaded 7 = 1 ∧
    getPageForLine (buildIndex wDoc) 3 = 2 ∧
    getPageForLine (buildIndex wDoc) 99 = 2 := by
  refine ⟨(C10_getPageForLine_total wDoc 7).1 ServerIndex.unloaded rfl, ?_, ?_⟩
  · have h := (C10_getPageForLine_total wDoc 3).2.2.1 1 (by decide) (by decide) (by decide)
    exact h.trans (by decide)
  · have h := (C10_getPageForLine_total wDoc 99).2.2.2 (by decide)
    exact h.trans (by decide)

/-- The one-page document whose single page carries the page number 0. -/
def cDoc10 : MMDLinesData :=
  { pages := [ { image_id := "p", page := 0, lines := [] } ] }

/-- Counterexample to C10 as stated: for a line index at or beyond the
total line count, the claim demands the page number of the last page (here
0), but the source's `?.page || 1` returns 1. -/
theorem C10_counterexample :
    (buildIndex cDoc10).lineTexts.length = 0 ∧
    (cDoc10.pages.getLast?).map (fun p => p.page) = some 0 ∧
    getPageForLine (buildIndex cDoc10) 0 = 1 := by
  refine ⟨by decide, by decide, by decide⟩

/-! ## Claim C5: the secondary chapter-number query path -/

/-- Invariant of the chapter list during the build: line numbers strictly
increase and stay below the number of lines processed. -/
def ChapInv (st : BState) : Prop :=
  List.Pairwise (· < ·) (st.chapters.map (fun c => c.lineNum)) ∧
  ∀ c ∈ st.chapters, c.lineNum < st.lineTexts.length

theorem buildLine_chapInv (pg : Nat) (st : BState) (ln : MMDLine)
    (h : ChapInv st) : ChapInv (buildLine pg st ln) := by
  unfold ChapInv
  rw [buildLine_chapters, buildLine_lineTexts]
  by_cases hc : ((jsTrim ln.text).length > 5 && isChapterLine (jsTrim ln.text)) = true
  · rw [if_pos hc]
    constructor
    · rw [List.map_append]
      refine pairwise_append_singleton h.1 ?_
      intro x hx
      rcases List.mem_map.mp hx with ⟨c, hcmem, rfl⟩
      exact h.2 c hcmem
    · intro c hcmem
      simp only [List.length_append, List.length_cons, List.length_nil]
      rcases List.mem_append.mp hcmem with h1 | h1
      · have := h.2 c h1
        omega
      · have hx := List.mem_singleton.mp h1
        subst hx
        show st.lineTexts.length < st.lineTexts.length + 1
        omega
  · rw [if_neg hc]
    simp only [List.append_nil]
    refine ⟨h.1, ?_⟩
    intro c hcmem
    have := h.2 c hcmem
    simp only [List.length_append, List.length_cons, List.length_nil]
    omega

theorem buildAll_chapInv (d : MMDLinesData) : ChapInv (buildAll d) := by
  unfold buildAll
  refine foldl_inv _ _ _ ⟨List.Pairwise.nil, by simp⟩ ?_
  intro st p _ hP
  unfold buildPage
  refine foldl_inv _ _ _ hP ?_
  intro st' ln _ h'
  exact buildLine_chapInv p.page st' ln h'

theorem buildIndex_chapters_nodup (d : MMDLinesData) :
    (((buildIndex d).chapters).map (fun c => c.lineNum)).Nodup := by
  have h := (buildAll_chapInv d).1
  have hnd : (((buildAll d).chapters).map (fun c => c.lineNum)).Nodup :=
    h.imp (fun hlt => Nat.ne_of_lt hlt)
  have heq : (buildIndex d).chapters =
      stableSort (fun a b => a.lineNum ≤ b.lineNum) (buildAll d).chapters := by
    simp [buildIndex]
  rw [heq]
  exact ((stableSort_perm _ _).map _).nodup_iff.mpr hnd

theorem secondary_mono (idx : ServerIndex) (num : String) :
    ∀ (chs : List ChapterRec) (results : List ChapterHit),
    ∀ r ∈ results, r ∈ findChapterSecondary idx num chs results := by
  intro chs
  induction chs with
  | nil => intro results r hr; exact hr
  | cons ch rest ih =>
    intro results r hr
    simp only [findChapterSecondary]
    by_cases hc : (jsIncludes ch.title ("Chapter " ++ num) ||
        jsIncludes ch.title ("chapter " ++ num)) = true
    · rw [if_pos hc]
      by_cases hany : (results.any (fun r => r.lineNum = ch.lineNum)) = true
      · rw [if_pos hany]
        exact ih results r hr
      · rw [if_neg hany]
        exact ih _ r (List.mem_append_left _ hr)
    · rw [if_neg hc]
      exact ih results r hr

theorem secondary_from (idx : ServerIndex) (num : String)
    (allC : List ChapterRec) :
    ∀ (chs : List ChapterRec), (∀ c ∈ chs, c ∈ allC) →
    ∀ (results : List ChapterHit),
    (∀ r ∈ results, ∃ ch ∈ allC,
      r.title = ch.title ∧ r.lineNum = ch.lineNum ∧ r.page = ch.page) →
    ∀ r ∈ findChapterSecondary idx num chs results, ∃ ch ∈ allC,
      r.title = ch.title ∧ r.lineNum = ch.lineNum ∧ r.page = ch.page := by
  intro chs
  induction chs with
  | nil => intro _ results hres r hr; exact hres r hr
  | cons ch rest ih =>
    intro hsub results hres r hr
    have hsub' : ∀ c ∈ rest, c ∈ allC := fun c hc => hsub c (List.mem_cons_of_mem ch hc)
    have hch : ch ∈ allC := hsub ch (List.mem_cons_self ch rest)
    simp only [findChapterSecondary] at hr
    by_cases hc : (jsIncludes ch.title ("Chapter " ++ num) ||
        jsIncludes ch.title ("chapter " ++ num)) = true
    · rw [if_pos hc] at hr
      by_cases hany : (results.any (fun r => r.lineNum = ch.lineNum)) = true
      · rw [if_pos hany] at hr
        exact ih hsub' results hres r hr
      · rw [if_neg hany] at hr
        refine ih hsub' _ ?_ r hr
        intro r' hr'
        rcases List.mem_append.mp hr' with h1 | h1
        · exact hres r' h1
        · have := List.mem_singleton.mp h1
          subst this
          exact ⟨ch, hch, rfl, rfl, rfl⟩
    · rw [if_neg hc] at hr
      exact ih hsub' results hres r hr

theorem secondary_nodup (idx : ServerIndex) (num : String) :
    ∀ (chs : List ChapterRec) (results : List ChapterHit),
    ((results.map (fun r => r.lineNum)).Nodup) →
    ((findChapterSecondary idx num chs results).map (fun r => r.lineNum)).Nodup := by
  intro chs
  induction chs with
  | nil => intro results h; exact h
  | cons ch rest ih =>
    intro results h
    simp only [findChapterSecondary]
    by_cases hc : (jsIncludes ch.title ("Chapter " ++ num) ||
        jsIncludes ch.title ("chapter " ++ num)) = true
    · rw [if_pos hc]
      by_cases hany : (results.any (fun r => r.lineNum = ch.lineNum)) = true
      · rw [if_pos hany]
        exact ih results h
      · rw [if_neg hany]
        refine ih _ ?_
        rw [List.map_append]
        refine List.nodup_append.mpr ⟨h, List.nodup_singleton _, ?_⟩
        intro x hx hx'
        have hxeq : x = ch.lineNum := by simpa using hx'
        subst hxeq
        rcases List.mem_map.mp hx with ⟨r', hr', hr'eq⟩
        have : results.any (fun r => r.lineNum = ch.lineNum) = true := by
          refine List.any_eq_true.mpr ⟨r', hr', ?_⟩
          simpa using hr'eq
        exact hany this
    · rw [if_neg hc]
      exact ih results h

theorem secondary_complete (idx : ServerIndex) (num : String) :
    ∀ (chs : List ChapterRec) (results : List ChapterHit),
    ∀ ch ∈ chs,
    (jsIncludes ch.title ("Chapter " ++ num) ||
      jsIncludes ch.title ("chapter " ++ num)) = true →
    ∃ r ∈ findChapterSecondary idx num chs results, r.lineNum = ch.lineNum := by
  intro chs
  induction chs with
  | nil => intro results ch hch; exact absurd hch (by simp)
  | cons ch0 rest ih =>
    intro results ch hch hcond
    rcases List.mem_cons.mp hch with rfl | hch'
    · simp only [findChapterSecondary]
      rw [if_pos hcond]
      by_cases hany : (results.any (fun r => r.lineNum = ch.lineNum)) = true
      · rw [if_pos hany]
        rcases List.any_eq_true.mp hany with ⟨r, hr, hreq⟩
        refine ⟨r, secondary_mono idx num rest results r hr, ?_⟩
        simpa using hreq
      · rw [if_neg hany]
        refine ⟨_, secondary_mono idx num rest _ _
          (List.mem_append_right _ (List.mem_singleton.mpr rfl)), rfl⟩
    · simp only [findChapterSecondary]
      by_cases hc : (jsIncludes ch0.title ("Chapter " ++ num) ||
          jsIncludes ch0.title ("chapter " ++ num)) = true
      · rw [if_pos hc]
        by_cases hany : (results.any (fun r => r.lineNum = ch0.lineNum)) = true
        · rw [if_pos hany]
          exact ih results ch hch' hcond
        · rw [if_neg hany]
          exact ih _ ch hch' hcond
      · rw [if_neg hc]
        exact ih results ch hch' hcond

theorem findChapter_eq (d : MMDLinesData) (query num : String)
    (hnum : firstDigitRun query.data = some num) :
    findChapter (buildIndex d) query =
      findChapterSecondary (buildIndex d) num (buildIndex d).chapters
        (((buildIndex d).chapters.filter (chapterMatchCond (jsLower query))).map
          (fun ch => { title := ch.title, lineNum := ch.lineNum, page := ch.page,
                       context := getContextAroundLines (buildIndex d) [ch.lineNum] 20 })) := by
  simp only [findChapter, buildIndex_isReady, Bool.not_true, Bool.false_eq_true, if_false]
  rw [hnum]

theorem primary_from (idx : ServerIndex) (nq : String) :
    ∀ r ∈ (idx.chapters.filter (chapterMatchCond nq)).map
      (fun ch => ({ title := ch.title, lineNum := ch.lineNum, page := ch.page,
                    context := getContextAroundLines idx [ch.lineNum] 20 } : ChapterHit)),
    ∃ ch ∈ idx.chapters, r.title = ch.title ∧ r.lineNum = ch.lineNum ∧ r.page = ch.page := by
  intro r hr
  rcases List.mem_map.mp hr with ⟨ch, hch, rfl⟩
  exact ⟨ch, List.mem_of_mem_filter hch, rfl, rfl, rfl⟩

theorem primary_nodup (d : MMDLinesData) (nq : String) :
    ((((buildIndex d).chapters.filter (chapterMatchCond nq)).map
      (fun ch => ({ title := ch.title, lineNum := ch.lineNum, page := ch.page,
                    context := getContextAroundLines (buildIndex d) [ch.lineNum] 20 } : ChapterHit))).map
      (fun r => r.lineNum)).Nodup := by
  rw [List.map_map]
  have hcomp : ((fun r : ChapterHit => r.lineNum) ∘
      (fun ch : ChapterRec =>
        ({ title := ch.title, lineNum := ch.lineNum, page := ch.page,
           context := getContextAroundLines (buildIndex d) [ch.lineNum] 20 } : ChapterHit))) =
      fun ch : ChapterRec => ch.lineNum := rfl
  rw [hcomp]
  exact (buildIndex_chapters_nodup d).sublist ((List.filter_sublist _).map _)

/-- **C5** (corrected): with a digit sequence `num` extracted from the
query, `findChapter` returns a hit (with the heading's title, line and
page) for every detected heading whose title contains the literal
`Chapter num` or `chapter num` — the exact casings the source tests —
deduplicated by line number against the substring-match path.  The
original claim's fully case-insensitive match (titles reading e.g.
`CHAPTER num`) does not hold (see the counterexample). -/
theorem C5_findChapter_secondary_matches (d : MMDLinesData) (query num : String)
    (hnum : firstDigitRun query.data = some num) :
    ((findChapter (buildIndex d) query).map (fun r => r.lineNum)).Nodup ∧
    ∀ ch ∈ (buildIndex d).chapters,
      (jsIncludes ch.title ("Chapter " ++ num) ||
        jsIncludes ch.title ("chapter " ++ num)) = true →
      ∃ r ∈ findChapter (buildIndex d) query,
        r.lineNum = ch.lineNum ∧ r.title = ch.title ∧ r.page = ch.page := by
  rw [findChapter_eq d query num hnum]
  constructor
  · exact secondary_nodup _ _ _ _ (primary_nodup d (jsLower query))
  · intro ch hch hcond
    obtain ⟨r, hr, hrl⟩ :=
      secondary_complete (buildIndex d) num (buildIndex d).chapters _ ch hch hcond
    obtain ⟨ch', hch', ht, hl, hp⟩ :=
      secondary_from (buildIndex d) num (buildIndex d).chapters (buildIndex d).chapters
        (fun c hc => hc) _ (primary_from (buildIndex d) (jsLower query)) r hr
    have hcc : ch' = ch := by
      have hinj := List.inj_on_of_nodup_map (buildIndex_chapters_nodup d)
      exact hinj hch' hch (by rw [← hl, hrl])
    subst hcc
    exact ⟨r, hr, hrl, ht, hp⟩

theorem C5_witness :
    ∃ r ∈ findChapter (buildIndex wDoc) "Chapter 3",
      r.lineNum = 1 ∧ r.title = "Chapter 3: Origins" ∧ r.page = 1 :=
  (C5_findChapter_secondary_matches wDoc "Chapter 3" "3" (by decide)).2
    { title := "Chapter 3: Origins", lineNum := 1, page := 1 } (by decide) (by decide)

/-- A document whose only heading reads `CHAPTER 3: ORIGINS` (upper case). -/
def cDoc5 : MMDLinesData :=
  { pages := [
      { image_id := "p", page := 1,
        lines := [ { text := "\\section*\x7bCHAPTER 3: ORIGINS\x7d", line := 1, column := 0 } ] } ] }

/-- Counterexample to C5 as stated: the heading's title contains
`Chapter 3` case-insensitively, the query `chap 3` carries the digit
sequence `3`, yet `findChapter` returns nothing — the secondary path only
matches the literal casings `Chapter 3` / `chapter 3`. -/
theorem C5_counterexample :
    (∃ ch ∈ (buildIndex cDoc5).chapters,
      jsIncludes (jsLower ch.title) (jsLower "Chapter 3") = true) ∧
    firstDigitRun ("chap 3").data = some "3" ∧
    findChapter (buildIndex cDoc5) "chap 3" = [] := by
  refine ⟨⟨{ title := "CHAPTER 3: ORIGINS", lineNum := 0, page := 1 }, by decide, by decide⟩,
    by decide, by decide⟩

/-! ## route.ts: intent extraction, keyword search, context assembly -/

/-- The characters escaped by `keyword.replace(/[.*+?^${}()|[\]\\]/g, "\\$&")`. -/
def isRegexSpecial (c : Char) : Bool :=
  c = '.' || c = '*' || c = '+' || c = '?' || c = '^' || c = '$' ||
  c = '\x7b' || c = '\x7d' || c = '(' || c = ')' || c = '|' ||
  c = '[' || c = ']' || c = '\\'

/-- The regex-escaping applied to each keyword before it is compiled into a
pattern in `findRelevantSections`: every special character is preceded by a
backslash. -/
def escapeRegExpChars (s : String) : String :=
  ⟨s.data.flatMap (fun c => if isRegexSpecial c then ['\\', c] else [c])⟩

/-- The pattern string the client-side `MMDIndex.findAllOccurrences` hands
to `new RegExp(pattern, "i")`: the caller-supplied fragment verbatim, with
no escaping applied. -/
def clientFindAllOccurrencesPattern (pattern : String) : String :=
  pattern

/-- The stopword list of `extractIntent` (`"its"` appears twice in the
source array; a JS `Set` deduplicates, and list membership is unaffected). -/
def commonWords : List String :=
  ["the", "and", "for", "are", "but", "not", "you", "all", "can", "her",
   "was", "one", "our", "out", "day", "get", "has", "him", "his", "how",
   "its", "may", "new", "now", "old", "see", "two", "way", "who", "boy",
   "did", "its", "let", "put", "say", "she", "too", "use"]

/-- Line terminators that JS `.` (without the `s` flag) does not match. -/
def isLineTerm (c : Char) : Bool :=
  c = '\n' || c = '\r' || c.toNat = 0x2028 || c.toNat = 0x2029

/-- Boundary check after an alternative: the next character (if any) is not
a word character. -/
def afterBoundary (a : List Char) (cs : List Char) : Bool :=
  match cs.drop a.length with
  | [] => true
  | c :: _ => !(isWordChar c)

/-- Scan for `/\b(alt1|alt2|...)\b/i` where every alternative starts and
ends with a word character; `prev` is the character before the current
position. -/
def wbAltScan (alts : List String) : Option Char → List Char → Bool
  | _, [] => false
  | prev, c :: cs =>
    ((match prev with | none => true | some p => !(isWordChar p)) &&
      alts.any (fun a => prefixCI a.data (c :: cs) && afterBoundary a.data (c :: cs))) ||
    wbAltScan alts (some c) cs

/-- Test of a word-boundary alternation regex on a string. -/
def jsTestWordAltCI (alts : List String) (s : String) : Bool :=
  wbAltScan alts none s.data

/-- The quote characters of `/["']([^"']+)["']/g`. -/
def isQuoteChar (c : Char) : Bool :=
  c = '"' || c = '\''

/-- Scanner for all matches of `/["']([^"']+)["']/g`: `none` means outside
a candidate; `some (q, bodyRev)` means an opening quote `q` was seen and
`bodyRev` holds the (reversed) non-quote body so far. -/
def quotedScanGo : List Char → Option (Char × List Char) → List (List Char)
  | [], _ => []
  | c :: cs, none =>
    if isQuoteChar c then quotedScanGo cs (some (c, []))
    else quotedScanGo cs none
  | c :: cs, some (q, bodyRev) =>
    if isQuoteChar c then
      if bodyRev.length ≥ 1 then (q :: (bodyRev.reverse ++ [c])) :: quotedScanGo cs none
      else quotedScanGo cs (some (c, []))
    else quotedScanGo cs (some (q, c :: bodyRev))

/-- All full matches of `request.match(/["']([^"']+)["']/g)`. -/
def quotedMatches (s : String) : List String :=
  (quotedScanGo s.data none).map String.mk

/-- `q.replace(/["']/g, "")`. -/
def stripQuotes (s : String) : String :=
  ⟨s.data.filter (fun c => !(isQuoteChar c))⟩

/-- The result record of `extractIntent`. -/
structure IntentResult where
  keywords : List String
  intent : String
  mentions : List String
deriving DecidableEq, Repr

/-- `extractIntent` from `route.ts`. -/
def extractIntent (request : String) : IntentResult :=
  let lowerRequest := jsLower request
  let words := wordRuns 3 lowerRequest.data
  let keywords := words.filter (fun w => !(commonWords.contains w) && w.length ≥ 3)
  let intent :=
    if jsTestWordAltCI ["math", "equation", "formula", "solve", "calculate",
        "compute", "latex", "tex"] request then "math"
    else if jsTestWordAltCI ["table", "row", "column", "cell", "header"] request then "table"
    else if jsTestWordAltCI ["chapter", "section", "heading", "title"] request then "chapter"
    else if jsTestWordAltCI ["format", "style", "bold", "italic", "underline",
        "font"] request then "formatting"
    else "general"
  let quoted := quotedMatches request
  let mentions1 := quoted.map stripQuotes
  let mentions2 := mentions1 ++
    (match chapterNumMatch request.data with
     | some n => ["Chapter " ++ n]
     | none => [])
  let mentions3 := mentions2 ++
    (match sectionNumMatch request.data with
     | some n => ["Section " ++ n]
     | none => [])
  { keywords := keywords, intent := intent, mentions := mentions3 }

/-- Non-overlapping case-insensitive match count of a literal pattern (the
denotation of `block.match(new RegExp(escapedKeyword, "gi"))?.length`: the
escaped pattern matches exactly the literal keyword).  The second `Nat` is
the number of characters still to be skipped inside the previous match. -/
def countMatchesGo (pat : List Char) : List Char → Nat → Nat
  | [], _ => 0
  | _ :: cs, Nat.succ k => countMatchesGo pat cs k
  | c :: cs, 0 =>
    if pat ≠ [] && prefixCI pat (c :: cs) then 1 + countMatchesGo pat cs (pat.length - 1)
    else countMatchesGo pat cs 0

def countMatchesCI (s pat : String) : Nat :=
  countMatchesGo pat.data s.data 0

/-- Splitter for `markdown.split(/\n\n+/)`: `acc` is the reversed current
block and `pending` counts the newlines just read; a pending run of two or
more newlines is a separator. -/
def splitBlocksGo : List Char → List Char → Nat → List (List Char)
  | [], acc, pending =>
    if pending ≥ 2 then [acc.reverse, []]
    else [acc.reverse ++ List.replicate pending '\n']
  | '\n' :: cs, acc, pending => splitBlocksGo cs acc (pending + 1)
  | c :: cs, acc, pending =>
    if pending ≥ 2 then acc.reverse :: splitBlocksGo cs [c] 0
    else splitBlocksGo cs (c :: (List.replicate pending '\n' ++ acc)) 0

/-- JS `markdown.split(/\n\n+/)`. -/
def jsSplitBlocks (s : String) : List String :=
  (splitBlocksGo s.data [] 0).map String.mk

/-- One scored paragraph block of `findRelevantSections`. -/
structure ScoredSection where
  text : String
  score : Nat
  index : Nat
deriving DecidableEq, Repr

/-- `findRelevantSections` from `route.ts`: split into paragraph blocks,
score each block by summed keyword occurrence counts, keep scoring blocks
with one neighbouring block of context on each side, sort by descending
score (stable) and return the top `maxResults` texts. -/
def findRelevantSections (markdown : String) (keywords : List String)
    (maxResults : Nat) : List String :=
  let blocks := jsSplitBlocks markdown
  let sections := (List.range blocks.length).filterMap (fun i =>
    let block := jsLower (blocks.getD i "")
    let score := (keywords.map (fun kw => countMatchesCI block kw)).sum
    if score > 0 then
      let start := i - 1
      let stop := min blocks.length (i + 2)
      let context := String.intercalate "\n\n" ((blocks.drop start).take (stop - start))
      some ({ text := context, score := score, index := i } : ScoredSection)
    else none)
  let sorted := stableSort (fun a b => b.score ≤ a.score) sections
  (sorted.take maxResults).map (fun s => s.text)

/-! ### The rename-pattern step's three regexes -/

/-- Match of `(?:Chapter|chapter)\s*NUM[^\n]*` (flags `gi`) at the current
position: returns the matched text and the remaining characters. -/
def matchChapterLineAt (num : List Char) (cs : List Char) :
    Option (List Char × List Char) :=
  if prefixCI "chapter".data cs then
    let after := cs.drop 7
    let ws := after.takeWhile isJsWs
    let afterWs := after.drop ws.length
    if prefixCS num afterWs then
      let afterNum := afterWs.drop num.length
      let lineRest := afterNum.takeWhile (· ≠ '\n')
      some (cs.take (7 + ws.length + num.length + lineRest.length),
            afterNum.drop lineRest.length)
    else none
  else none

/-- Does a `[^}]*` run contain `Chapter\s*NUM` (case-insensitive) before
its closing brace? -/
def braceRunHasChapterNum (num : List Char) : List Char → Bool
  | [] => false
  | c :: cs =>
    if c = '\x7d' then false
    else
      (prefixCI "chapter".data (c :: cs) &&
        prefixCS num (((c :: cs).drop 7).dropWhile isJsWs)) ||
      braceRunHasChapterNum num cs

/-- Match of `\\section\*?\{[^}]*Chapter\s*NUM[^}]*\}` (flags `gi`) at the
current position. -/
def matchSectionChapterAt (num : List Char) (cs : List Char) :
    Option (List Char × List Char) :=
  if prefixCI "\\section".data cs then
    let rest8 := cs.drop 8
    let headLen : Option Nat :=
      match rest8 with
      | '*' :: '\x7b' :: _ => some 10
      | '\x7b' :: _ => some 9
      | _ => none
    match headLen with
    | none => none
    | some hl =>
      let inner := cs.drop hl
      let run := inner.takeWhile (· ≠ '\x7d')
      let afterRun := inner.drop run.length
      match afterRun with
      | [] => none
      | _ :: restAfter =>
        if braceRunHasChapterNum num run then
          some (cs.take (hl + run.length + 1), restAfter)
        else none
  else none

/-- Match of `#+\s*Chapter\s*NUM[^\n]*` (flags `gi`) at the current
position. -/
def matchHashChapterAt (num : List Char) (cs : List Char) :
    Option (List Char × List Char) :=
  let hashes := cs.takeWhile (· = '#')
  if hashes.length ≥ 1 then
    let afterHash := cs.drop hashes.length
    let ws := afterHash.takeWhile isJsWs
    let afterWs := afterHash.drop ws.length
    if prefixCI "chapter".data afterWs then
      let after7 := afterWs.drop 7
      let ws2 := after7.takeWhile isJsWs
      let afterWs2 := after7.drop ws2.length
      if prefixCS num afterWs2 then
        let afterNum := afterWs2.drop num.length
        let lineRest := afterNum.takeWhile (· ≠ '\n')
        some (cs.take (hashes.length + ws.length + 7 + ws2.length + num.length + lineRest.length),
              afterNum.drop lineRest.length)
      else none
    else none
  else none

/-- Global scan collecting all non-overlapping matches from the left; the
fuel (initially one more than the character count) dominates the number of
steps, since every step consumes at least one character. -/
def scanMatches (matchAt : List Char → Option (List Char × List Char)) :
    Nat → List Char → List (List Char)
  | 0, _ => []
  | _ + 1, [] => []
  | fuel + 1, c :: cs =>
    match matchAt (c :: cs) with
    | some (m, rest) => m :: scanMatches matchAt fuel rest
    | none => scanMatches matchAt fuel cs

/-- JS `markdown.match(pattern)` for a global pattern, as the list of
matched substrings. -/
def jsMatchAll (matchAt : List Char → Option (List Char × List Char))
    (s : String) : List String :=
  (scanMatches matchAt (s.data.length + 1) s.data).map String.mk

/-! ### The title-rename detection regex -/

/-- The `\s+["']?([^"']+)["']?` tail of the rename-detection regex: at
least one whitespace character, then (after backtracking) an optional
quote and at least one non-quote character. -/
def titleTailOk (cs : List Char) : Bool :=
  match cs with
  | c :: rest =>
    isJsWs c &&
      (match rest with
       | [] => false
       | y :: ys =>
         if isJsWs y then true
         else if !(isQuoteChar y) then true
         else
           match ys with
           | z :: _ => !(isQuoteChar z)
           | [] => false)
  | [] => false

/-- Scan for `(?:to|as)` (case-insensitive) with no line terminator
skipped, followed by the quoted-title tail. -/
def scanToAsTail : List Char → Bool
  | [] => false
  | c :: cs =>
    ((prefixCI "to".data (c :: cs) || prefixCI "as".data (c :: cs)) &&
      titleTailOk ((c :: cs).drop 2)) ||
    (!(isLineTerm c) && scanToAsTail cs)

/-- Scan for `(?:chapter|section|title)` (case-insensitive), then the
`to`/`as` tail, crossing no line terminator. -/
def scanNounThen : List Char → Bool
  | [] => false
  | c :: cs =>
    (prefixCI "chapter".data (c :: cs) && scanToAsTail ((c :: cs).drop 7)) ||
    (prefixCI "section".data (c :: cs) && scanToAsTail ((c :: cs).drop 7)) ||
    (prefixCI "title".data (c :: cs) && scanToAsTail ((c :: cs).drop 5)) ||
    (!(isLineTerm c) && scanNounThen cs)

/-- Test of
`/(?:change|update|edit).*(?:chapter|section|title).*(?:to|as)\s+["']?([^"']+)["']?/i`,
used only for its truthiness in the rename step. -/
def titleMatchTest : List Char → Bool
  | [] => false
  | c :: cs =>
    (prefixCI "change".data (c :: cs) && scanNounThen ((c :: cs).drop 6)) ||
    (prefixCI "update".data (c :: cs) && scanNounThen ((c :: cs).drop 6)) ||
    (prefixCI "edit".data (c :: cs) && scanNounThen ((c :: cs).drop 4)) ||
    titleMatchTest cs

/-! ### The context assembler `getRelevantContext` -/

/-- `MMDIndexServer.isLoaded`. -/
def ServerIndex.isLoaded (idx : ServerIndex) : Bool :=
  idx.loaded

/-- The literal separator between occurrence windows of the excerpt path. -/
def locationChangeMarker : String := "\n\n[... location change ...]\n\n"

/-- The literal generic separator between joined context windows. -/
def genericMarker : String := "\n\n[...]\n\n"

/-- The literal separator between chapter occurrence windows. -/
def chapterOccMarker : String := "\n\n[... chapter occurrence ...]\n\n"

/-- The literal head/tail separator of the fallback strategy. -/
def docContinuesMarker : String := "\n\n[... document continues ...]\n\n"

/-- The literal trailing truncation marker. -/
def truncatedMarker : String := "\n[... truncated ...]"

/-- The mention loop of step 2: windows of ±3000 characters around the
first occurrence of each mention, joined by the generic separator; the loop
breaks once the context exceeds 70% of the budget (the source compares
against the float `maxChars * 0.7`; the model compares exactly). -/
def mentionLoop (markdown : String) (maxChars : Nat) :
    List String → String → String
  | [], ctx => ctx
  | m :: ms, ctx =>
    match jsIndexOf? markdown m with
    | none => mentionLoop markdown maxChars ms ctx
    | some mi =>
      let s := mi - 3000
      let e := min markdown.length (mi + m.length + 3000)
      let mc := jsSubstring markdown s e
      if mc.length > 0 then
        let ctx' := ctx ++ (if ctx ≠ "" then genericMarker else "") ++ mc
        if 10 * ctx'.length > 7 * maxChars then ctx'
        else mentionLoop markdown maxChars ms ctx'
      else mentionLoop markdown maxChars ms ctx

/-- The pattern loop of step 5: the first pattern with any match
contributes windows of ±2000 characters around each match. -/
def renameLoop (markdown : String) : List (List String) → String → String
  | [], ctx => ctx
  | patMatches :: rest, ctx =>
    if patMatches.length > 0 then
      let contextParts := patMatches.filterMap (fun m =>
        match jsIndexOf? markdown m with
        | some idx2 =>
          some (jsSubstring markdown (idx2 - 2000)
            (min markdown.length (idx2 + m.length + 2000)))
        | none => none)
      if contextParts.length > 0 then
        (if ctx ≠ "" then ctx ++ genericMarker else "") ++
          String.intercalate genericMarker contextParts
      else renameLoop markdown rest ctx
    else renameLoop markdown rest ctx

/-- Steps 2–5 of the no-excerpt branch of `getRelevantContext`, returning
the accumulated context and advisory annotations. -/
def noExcerptContext (idx : ServerIndex) (markdown request : String)
    (maxChars : Nat) (ei : String) : String × String :=
  let intentRes := extractIntent request
  let ctxA :=
    if intentRes.mentions.length > 0 then
      mentionLoop markdown maxChars intentRes.mentions ""
    else ""
  let step3 :=
    if ctxA = "" ∨ ctxA.length < 1000 then
      match chapterNumMatch request.data with
      | some chapterNum =>
        if idx.isLoaded then
          let chapters := findChapter idx ("Chapter " ++ chapterNum)
          if chapters.length > 0 then
            ((if ctxA ≠ "" then ctxA ++ genericMarker else "") ++
               String.intercalate chapterOccMarker (chapters.map (fun c => c.context)),
             ei ++ "\n\nFound Chapter " ++ chapterNum ++ " at " ++
               toString chapters.length ++ " location(s) in the document.")
          else (ctxA, ei)
        else (ctxA, ei)
      | none => (ctxA, ei)
    else (ctxA, ei)
  let ctxB := step3.1
  let ctxC :=
    if ctxB = "" ∨ ctxB.length < 1000 then
      if intentRes.keywords.length > 0 then
        let relevantSections := findRelevantSections markdown intentRes.keywords 3
        if relevantSections.length > 0 then
          String.intercalate genericMarker relevantSections
        else ctxB
      else ctxB
    else ctxB
  let ctxD :=
    if ctxC = "" ∨ ctxC.length < 500 then
      if titleMatchTest request.data then
        match chapterNumMatch request.data with
        | some chapterNum =>
          renameLoop markdown
            [ jsMatchAll (matchChapterLineAt chapterNum.data) markdown,
              jsMatchAll (matchSectionChapterAt chapterNum.data) markdown,
              jsMatchAll (matchHashChapterAt chapterNum.data) markdown ] ctxC
        | none => ctxC
      else ctxC
    else ctxC
  (ctxD, step3.2)

/-- The excerpt branch of `getRelevantContext`: index-based occurrence
windows joined by the location-change marker, with a raw-text substring
window of ±5000 characters as fallback. -/
def excerptContext (idx : ServerIndex) (markdown s : String) (ei : String) :
    String × String :=
  let step1 :=
    if idx.isLoaded then
      let occurrences := findAllOccurrencesWithContext idx s 3
      if occurrences.length > 0 then
        (String.intercalate locationChangeMarker (occurrences.map (fun o => o.context)),
         if occurrences.length > 1 then
           ei ++ "\n\nIMPORTANT: The selected text appears " ++
             toString occurrences.length ++
             " times in the document. Make sure to update ALL occurrences if needed."
         else ei)
      else ("", ei)
    else ("", ei)
  let ctx2 :=
    if step1.1 = "" then
      match jsIndexOf? markdown s with
      | some selectedIndex =>
        jsSubstring markdown (selectedIndex - 5000)
          (min markdown.length (selectedIndex + s.length + 5000))
      | none => ""
    else step1.1
  (ctx2, step1.2)

/-- The context-and-annotations accumulation of `getRelevantContext`
(everything before the fallback and finalization). -/
def getRelevantContextCore (idx : ServerIndex) (markdown : String)
    (selectedText : Option String) (request : String) (maxChars : Nat) :
    String × String :=
  let ei0 := if idx.isLoaded then getEnhancedContext idx markdown selectedText request else ""
  match selectedText with
  | some s =>
    if s ≠ "" ∧ jsTrim s ≠ "" then excerptContext idx markdown s ei0
    else noExcerptContext idx markdown request maxChars ei0
  | none => noExcerptContext idx markdown request maxChars ei0

/-- The assembled text: the accumulated context, or the default strategy
(whole document, or a 70/30 head/tail split joined by the continues
marker) when every step produced nothing. -/
def getRelevantContextAssembled (idx : ServerIndex) (markdown : String)
    (selectedText : Option String) (request : String) (maxChars : Nat) : String :=
  let context0 := (getRelevantContextCore idx markdown selectedText request maxChars).1
  if context0 = "" then
    if markdown.length > maxChars then
      jsSubstring markdown 0 (7 * maxChars / 10) ++ docContinuesMarker ++
        jsSubstring markdown (markdown.length - 3 * maxChars / 10) markdown.length
    else markdown
  else context0

/-- `getRelevantContext` from `route.ts`: the assembled text is
hard-truncated to the budget with the truncation marker appended, and the
advisory annotations are appended when shorter than 2000 characters. -/
def getRelevantContext (idx : ServerIndex) (markdown : String)
    (selectedText : Option String) (request : String) (maxChars : Nat) : String :=
  let context1 := getRelevantContextAssembled idx markdown selectedText request maxChars
  let enhancedInfo := (getRelevantContextCore idx markdown selectedText request maxChars).2
  let context2 :=
    if context1.length > maxChars then jsSubstring context1 0 maxChars ++ truncatedMarker
    else context1
  if enhancedInfo ≠ "" ∧ enhancedInfo.length < 2000 then context2 ++ enhancedInfo
  else context2

/-! ## Claims C1 and C3: budget, truncation and the fallback -/

theorem string_ne_empty_iff_length (s : String) : s ≠ "" ↔ s.length ≠ 0 := by
  cases s with
  | mk data =>
    cases data with
    | nil => simp [String.length]
    | cons c cs =>
      constructor
      · intro _ hlen
        have : (String.mk (c :: cs)).length = cs.length + 1 := rfl
        omega
      · intro _ he
        exact List.noConfusion (congrArg String.data he)

theorem jsSubstring_length_exact (s : String) (a b : Nat) (hab : a ≤ b)
    (hb : b ≤ s.length) : (jsSubstring s a b).length = b - a := by
  show ((s.data.drop _).take _).length = b - a
  have hlen : s.length = s.data.length := rfl
  simp [List.length_take, List.length_drop]
  omega

theorem finalize_length_le (A E : String) (maxChars : Nat) :
    (if E ≠ "" ∧ E.length < 2000 then
        (if A.length > maxChars then jsSubstring A 0 maxChars ++ truncatedMarker else A) ++ E
      else (if A.length > maxChars then jsSubstring A 0 maxChars ++ truncatedMarker else A)).length ≤
      maxChars + truncatedMarker.length + 1999 := by
  have hsub := jsSubstring_zero_length_le A maxChars
  by_cases hA : A.length > maxChars
  · by_cases hE : E ≠ "" ∧ E.length < 2000
    · rw [if_pos hE, if_pos hA]
      simp only [String.length_append]
      omega
    · rw [if_neg hE, if_pos hA]
      simp only [String.length_append]
      omega
  · by_cases hE : E ≠ "" ∧ E.length < 2000
    · rw [if_pos hE, if_neg hA]
      simp only [String.length_append]
      omega
    · rw [if_neg hE, if_neg hA]
      omega

theorem finalize_trunc (A E : String) (maxChars : Nat) (h : A.length > maxChars) :
    ∃ info : String, info.length ≤ 1999 ∧
      (if E ≠ "" ∧ E.length < 2000 then
          (if A.length > maxChars then jsSubstring A 0 maxChars ++ truncatedMarker else A) ++ E
        else (if A.length > maxChars then jsSubstring A 0 maxChars ++ truncatedMarker else A)) =
        jsSubstring A 0 maxChars ++ truncatedMarker ++ info := by
  by_cases hE : E ≠ "" ∧ E.length < 2000
  · refine ⟨E, by omega, ?_⟩
    rw [if_pos hE, if_pos h, String.append_assoc]
  · refine ⟨"", by simp, ?_⟩
    rw [if_neg hE, if_pos h, String.append_assoc, String.append_empty]

/-- **C1** (corrected): the context returned by `getRelevantContext` is at
most `maxChars` plus the truncation marker plus at most 1999 characters of
advisory annotations; whenever the assembled text exceeds the budget it is
hard-truncated to the budget and the fixed literal truncation marker is
appended (before any annotations).  The original claim's bound of exactly
`maxChars` characters fails: the marker and the annotations are appended
after truncation (see the counterexample). -/
theorem C1_budget_and_truncation (idx : ServerIndex) (markdown : String)
    (selectedText : Option String) (request : String) (maxChars : Nat) :
    (getRelevantContext idx markdown selectedText request maxChars).length ≤
      maxChars + truncatedMarker.length + 1999 ∧
    ((getRelevantContextAssembled idx markdown selectedText request maxChars).length > maxChars →
      ∃ info : String, info.length ≤ 1999 ∧
        getRelevantContext idx markdown selectedText request maxChars =
          jsSubstring (getRelevantContextAssembled idx markdown selectedText request maxChars)
            0 maxChars ++ truncatedMarker ++ info) :=
  ⟨finalize_length_le _ _ _, fun h => finalize_trunc _ _ _ h⟩

theorem C1_witness :
    (getRelevantContextAssembled ServerIndex.unloaded "0123456789abcdef" none "" 10).length > 10 ∧
    (getRelevantContext ServerIndex.unloaded "0123456789abcdef" none "" 10).length ≤
      10 + truncatedMarker.length + 1999 ∧
    ∃ info : String, info.length ≤ 1999 ∧
      getRelevantContext ServerIndex.unloaded "0123456789abcdef" none "" 10 =
        jsSubstring (getRelevantContextAssembled ServerIndex.unloaded "0123456789abcdef" none "" 10)
          0 10 ++ truncatedMarker ++ info :=
  ⟨by decide,
   (C1_budget_and_truncation ServerIndex.unloaded "0123456789abcdef" none "" 10).1,
   (C1_budget_and_truncation ServerIndex.unloaded "0123456789abcdef" none "" 10).2 (by decide)⟩

/-- Counterexample to C1 as stated: a returned context strictly longer
than the budget. -/
theorem C1_counterexample :
    (getRelevantContext ServerIndex.unloaded "0123456789abcdef" none "" 10).length > 10 := by
  decide

theorem mentionLoop_of_none (markdown : String) (maxChars : Nat) :
    ∀ (ms : List String) (ctx : String),
    (∀ m ∈ ms, jsIndexOf? markdown m = none) →
    mentionLoop markdown maxChars ms ctx = ctx := by
  intro ms
  induction ms with
  | nil => intro ctx _; rfl
  | cons m ms' ih =>
    intro ctx h
    have hm := h m (List.mem_cons_self m ms')
    simp only [mentionLoop, hm]
    exact ih ctx (fun m' hm' => h m' (List.mem_cons_of_mem m hm'))

theorem noExcerptContext_empty (idx : ServerIndex) (markdown request : String)
    (maxChars : Nat) (hload : idx.loaded = false)
    (hm : ∀ m ∈ (extractIntent request).mentions, jsIndexOf? markdown m = none)
    (hk : findRelevantSections markdown (extractIntent request).keywords 3 = [])
    (ht : titleMatchTest request.data = false) :
    noExcerptContext idx markdown request maxChars "" = ("", "") := by
  have hload' : idx.isLoaded = false := hload
  have hA : (if (extractIntent request).mentions.length > 0 then
      mentionLoop markdown maxChars (extractIntent request).mentions "" else "") = "" := by
    by_cases h : (extractIntent request).mentions.length > 0
    · rw [if_pos h]
      exact mentionLoop_of_none markdown maxChars _ "" hm
    · rw [if_neg h]
  cases hcm : chapterNumMatch request.data with
  | none => simp [noExcerptContext, hA, hcm, hk, ht]
  | some n => simp [noExcerptContext, hA, hcm, hload', hk, ht]

theorem core_empty (idx : ServerIndex) (markdown request : String) (maxChars : Nat)
    (hload : idx.loaded = false)
    (hm : ∀ m ∈ (extractIntent request).mentions, jsIndexOf? markdown m = none)
    (hk : findRelevantSections markdown (extractIntent request).keywords 3 = [])
    (ht : titleMatchTest request.data = false) :
    getRelevantContextCore idx markdown none request maxChars = ("", "") := by
  have hload' : idx.isLoaded = false := hload
  unfold getRelevantContextCore
  simp only [hload', Bool.false_eq_true, if_false]
  exact noExcerptContext_empty idx markdown request maxChars hload hm hk ht

theorem getRelevantContext_eq (idx : ServerIndex) (markdown : String)
    (sel : Option String) (request : String) (maxChars : Nat) :
    getRelevantContext idx markdown sel request maxChars =
      (if (getRelevantContextCore idx markdown sel request maxChars).2 ≠ "" ∧
          (getRelevantContextCore idx markdown sel request maxChars).2.length < 2000 then
        (if (getRelevantContextAssembled idx markdown sel request maxChars).length > maxChars then
          jsSubstring (getRelevantContextAssembled idx markdown sel request maxChars) 0 maxChars ++
            truncatedMarker
        else getRelevantContextAssembled idx markdown sel request maxChars) ++
          (getRelevantContextCore idx markdown sel request maxChars).2
      else
        (if (getRelevantContextAssembled idx markdown sel request maxChars).length > maxChars then
          jsSubstring (getRelevantContextAssembled idx markdown sel request maxChars) 0 maxChars ++
            truncatedMarker
        else getRelevantContextAssembled idx markdown sel request maxChars)) := rfl

theorem finalize_pos (A E : String) (maxChars : Nat) (hA : 0 < A.length) :
    0 < (if E ≠ "" ∧ E.length < 2000 then
        (if A.length > maxChars then jsSubstring A 0 maxChars ++ truncatedMarker else A) ++ E
      else (if A.length > maxChars then jsSubstring A 0 maxChars ++ truncatedMarker else A)).length := by
  have htm : truncatedMarker.length = 20 := rfl
  by_cases h1 : A.length > maxChars
  · by_cases h2 : E ≠ "" ∧ E.length < 2000
    · rw [if_pos h2, if_pos h1]
      simp only [String.length_append]
      omega
    · rw [if_neg h2, if_pos h1]
      simp only [String.length_append]
      omega
  · by_cases h2 : E ≠ "" ∧ E.length < 2000
    · rw [if_pos h2, if_neg h1]
      simp only [String.length_append]
      omega
    · rw [if_neg h2, if_neg h1]
      omega

theorem fallback_length (markdown : String) (maxChars : Nat)
    (h : markdown.length > maxChars) :
    (jsSubstring markdown 0 (7 * maxChars / 10) ++ docContinuesMarker ++
      jsSubstring markdown (markdown.length - 3 * maxChars / 10) markdown.length).length =
      7 * maxChars / 10 + 32 + 3 * maxChars / 10 := by
  have hdc : docContinuesMarker.length = 32 := rfl
  have h7 : 7 * maxChars / 10 ≤ markdown.length := by omega
  have h1 := jsSubstring_length_exact markdown 0 (7 * maxChars / 10) (Nat.zero_le _) h7
  have h2 := jsSubstring_length_exact markdown (markdown.length - 3 * maxChars / 10)
    markdown.length (by omega) (le_refl _)
  simp only [String.length_append, h1, h2, hdc]
  omega

/-- **C3** (corrected): the assembler never returns empty context for a
non-empty document; and in the scenario of the claim (index unavailable,
no excerpt, no mention found, no keyword section, no rename pattern) the
result is the whole document when it fits the budget, and otherwise the
70/30 head/tail assembly joined by the continues marker — hard-truncated
to the budget with the truncation marker appended, which the original
claim omits (see the counterexample). -/
theorem C3_fallback_nonempty (idx : ServerIndex) (markdown request : String)
    (maxChars : Nat) :
    (∀ sel : Option String, markdown ≠ "" →
      getRelevantContext idx markdown sel request maxChars ≠ "") ∧
    (idx.loaded = false →
      (∀ m ∈ (extractIntent request).mentions, jsIndexOf? markdown m = none) →
      findRelevantSections markdown (extractIntent request).keywords 3 = [] →
      titleMatchTest request.data = false →
      getRelevantContext idx markdown none request maxChars =
        (if markdown.length > maxChars then
          jsSubstring (jsSubstring markdown 0 (7 * maxChars / 10) ++ docContinuesMarker ++
              jsSubstring markdown (markdown.length - 3 * maxChars / 10) markdown.length)
            0 maxChars ++ truncatedMarker
        else markdown)) := by
  constructor
  · intro sel hne
    have hA : 0 < (getRelevantContextAssembled idx markdown sel request maxChars).length := by
      unfold getRelevantContextAssembled
      by_cases hc : (getRelevantContextCore idx markdown sel request maxChars).1 = ""
      · rw [if_pos hc]
        by_cases hlen : markdown.length > maxChars
        · rw [if_pos hlen]
          have hdc : docContinuesMarker.length = 32 := rfl
          simp only [String.length_append]
          omega
        · rw [if_neg hlen]
          have := (string_ne_empty_iff_length markdown).mp hne
          omega
      · rw [if_neg hc]
        have := (string_ne_empty_iff_length _).mp hc
        omega
    have hpos := finalize_pos (getRelevantContextAssembled idx markdown sel request maxChars)
      ((getRelevantContextCore idx markdown sel request maxChars).2) maxChars hA
    rw [string_ne_empty_iff_length, getRelevantContext_eq]
    omega
  · intro hload hm hk ht
    have hcore := core_empty idx markdown request maxChars hload hm hk ht
    have hAeq : getRelevantContextAssembled idx markdown none request maxChars =
        (if markdown.length > maxChars then
          jsSubstring markdown 0 (7 * maxChars / 10) ++ docContinuesMarker ++
            jsSubstring markdown (markdown.length - 3 * maxChars / 10) markdown.length
        else markdown) := by
      unfold getRelevantContextAssembled
      rw [hcore]
      rfl
    rw [getRelevantContext_eq, hcore, hAeq]
    simp only [ne_eq, not_true_eq_false, false_and, if_false]
    by_cases hlen : markdown.length > maxChars
    · rw [if_pos hlen, if_pos hlen]
      rw [if_pos (by rw [fallback_length markdown maxChars hlen]; omega)]
    · rw [if_neg hlen, if_neg hlen]
      rw [if_neg (by omega)]

theorem C3_witness :
    ("0123456789abcdef" : String) ≠ "" ∧
    getRelevantContext ServerIndex.unloaded "0123456789abcdef" none "" 10 ≠ "" ∧
    getRelevantContext ServerIndex.unloaded "0123456789abcdef" none "" 10 =
      (if ("0123456789abcdef" : String).length > 10 then
        jsSubstring (jsSubstring "0123456789abcdef" 0 (7 * 10 / 10) ++ docContinuesMarker ++
            jsSubstring "0123456789abcdef" (("0123456789abcdef" : String).length - 3 * 10 / 10)
              ("0123456789abcdef" : String).length) 0 10 ++ truncatedMarker
      else "0123456789abcdef") :=
  ⟨by decide,
   (C3_fallback_nonempty ServerIndex.unloaded "0123456789abcdef" "" 10).1 none (by decide),
   (C3_fallback_nonempty ServerIndex.unloaded "0123456789abcdef" "" 10).2 rfl
     (by decide) (by decide) (by decide)⟩

/-- Counterexample to C3 as stated: all retrieval steps produced nothing
and the document exceeds the budget, yet the result is not the plain 70/30
head/tail assembly — it is additionally truncated to the budget with the
truncation marker appended. -/
theorem C3_counterexample :
    (getRelevantContextCore ServerIndex.unloaded "0123456789abcdef" none "" 10).1 = "" ∧
    ("0123456789abcdef" : String).length > 10 ∧
    getRelevantContext ServerIndex.unloaded "0123456789abcdef" none "" 10 ≠
      jsSubstring "0123456789abcdef" 0 (7 * 10 / 10) ++ docContinuesMarker ++
        jsSubstring "0123456789abcdef" (("0123456789abcdef" : String).length - 3 * 10 / 10)
          ("0123456789abcdef" : String).length := by
  refine ⟨by decide, by decide, by decide⟩

/-! ## Claim C4: regex escaping in dynamically built patterns -/

/-- **C4** (code bug): `findRelevantSections` escapes every regex special
character of each keyword before compiling it (`escapeRegExpChars`), but
the client-side `MMDIndex.findAllOccurrences` hands the caller-supplied
fragment to `new RegExp(pattern, "i")` verbatim — no escaping at all, as
`clientFindAllOccurrencesPattern` records.  On the fragment `"("` the
escaped pattern is `"\\("` while the client compiles the raw `"("`, an
invalid pattern that makes the RegExp constructor throw. -/
theorem C4_client_pattern_unescaped :
    escapeRegExpChars "(" = "\\(" ∧
    (∀ s : String, clientFindAllOccurrencesPattern s = s) ∧
    clientFindAllOccurrencesPattern "(" ≠ escapeRegExpChars "(" := by
  refine ⟨by decide, fun s => rfl, by decide⟩
